import Mathlib

/-!
Verification of the rox repository: a Lox-family language implemented twice,
as a tree-walking interpreter (crates `src` and `roxi`) and as a single-pass
bytecode compiler plus stack VM (crate `roxc`).

The development shallowly embeds the Rust sources:
* `Roxc` — the bytecode crate: scanner (`roxc/src/scanner.rs`), line
  run-length store and chunk (`roxc/src/chunk.rs`), values
  (`roxc/src/value.rs`), Pratt compiler (`roxc/src/compiler.rs`) and the
  stack VM (`roxc/src/vm.rs`).
* `RoxAst` — the AST crate `src`: expression evaluation
  (`src/interpreter.rs`), value display (`src/value.rs`) and the resolver
  (`src/resolver.rs`).
* `Roxi` — the `roxi` crate: AST interpreter (`roxi/src/interpreter.rs`),
  classes and methods (`roxi/src/class.rs`), functions (`roxi/src/func.rs`).

Conventions.  Rust `f64` numbers are embedded as `ℚ` (the claims settled
here never depend on IEEE-specific behaviour such as NaN, infinities or
rounding).  Rust `usize` arithmetic that may overflow is modelled with the
release-profile wrapping semantics, written out with an explicit `% 2 ^ 64`.
A Rust panic (slice index out of bounds, `unimplemented!`, integer overflow
aborts) is modelled as a distinguished result, usually a sticky `panicked`
flag or a `.panicOut` outcome: execution past a panic never yields tokens,
values or prints.  Sources are ASCII in every test case here, so `char`
positions and byte positions coincide and a Rust `String` is embedded as
`List Char` or `String` as convenient.
-/

namespace Roxc

/-! ### Line run-length store — `roxc/src/chunk.rs` -/

/-- One `(value, len)` run of the line table (`RunLength` in chunk.rs). -/
structure RunLength where
  value : Nat
  len : Nat
  deriving Repr, DecidableEq

/-- The run list is a vector of runs; `RunList { values: Vec<RunLength> }`. -/
abbrev RunList := List RunLength

/-- `RunList::push`: if the pushed line equals the last run's value the last
run's `len` is incremented, otherwise a fresh `(i, 1)` run is appended. -/
def runPush : RunList → Nat → RunList
  | [], i => [⟨i, 1⟩]
  | [r], i => if r.value = i then [⟨r.value, r.len + 1⟩] else [r, ⟨i, 1⟩]
  | r :: rest, i => r :: runPush rest i

/-- `RunList::get_unchecked`: linear scan accumulating run lengths; the
out-of-range panic is modelled as `none`. -/
def runGet : RunList → Nat → Option Nat
  | [], _ => none
  | r :: rest, idx => if idx < r.len then some r.value else runGet rest (idx - r.len)

/-- The fully decoded line sequence a run list represents. -/
def runDecoded (rl : RunList) : List Nat :=
  rl.flatMap fun r => List.replicate r.len r.value

lemma runPush_decoded (rl : RunList) (i : Nat) :
    runDecoded (runPush rl i) = runDecoded rl ++ [i] := by
  induction rl with
  | nil => simp [runPush, runDecoded]
  | cons r rest ih =>
    cases rest with
    | nil =>
      by_cases h : r.value = i
      · subst h
        simp [runPush, runDecoded, List.replicate_succ']
      · simp [runPush, h, runDecoded]
    | cons r' rest' =>
      simpa [runPush, runDecoded] using ih

lemma runGet_decoded (rl : RunList) (idx : Nat) :
    runGet rl idx = (runDecoded rl).get? idx := by
  induction rl generalizing idx with
  | nil => simp [runGet, runDecoded]
  | cons r rest ih =>
    by_cases h : idx < r.len
    · have hl : idx < (List.replicate r.len r.value).length := by simpa using h
      simp only [runGet, if_pos h, runDecoded, List.flatMap_cons, List.get?_eq_getElem?,
        List.getElem?_append_left hl, List.getElem?_replicate, if_pos h]
    · have hlen : r.len ≤ idx := Nat.le_of_not_lt h
      have hl : (List.replicate r.len r.value).length ≤ idx := by simpa using hlen
      simp only [runGet, if_neg h, runDecoded, List.flatMap_cons, List.get?_eq_getElem?,
        List.getElem?_append_right hl]
      rw [ih]
      simp [runDecoded]

/-! ### Scanner — `roxc/src/scanner.rs`

The scanner walks a `Peekable<Chars>` and a byte `cursor` into the original
source in lockstep (sources here are ASCII, so char index = byte index).
`advance` re-slices `&original[cursor..]` after each step; when `cursor`
exceeds the source length that slice panics, which the embedding records in
a sticky `panicked` flag. -/

/-- `TokenType` from scanner.rs. -/
inductive TokenType
  | LeftParen | RightParen | LeftBrace | RightBrace | Comma | Period | Minus | Plus
  | Semi | Slash | Star
  | Bang | BangEq | Eq | EqEq | Greater | GreaterEq | Less | LessEq
  | Ident | String | Number
  | And | Class | Else | False | For | Fun | If | Nil | Or | Print | Return | Super
  | This | True | Var | While | Eof
  deriving Repr, DecidableEq

/-- `ScannerError { line, index }` from scanner.rs. -/
structure ScannerError where
  line : Nat
  index : Nat
  deriving Repr, DecidableEq

/-- `Token { kind, slice, line }`; the slice borrows from the source. -/
structure Token where
  kind : TokenType
  slice : List Char
  line : Nat
  deriving Repr, DecidableEq

/-- The scanner state: `original`, `cursor`, `line`, `found_eof`, plus the
panic marker for out-of-bounds re-slicing (see section comment). -/
structure ScState where
  original : List Char
  cursor : Nat
  line : Nat
  foundEof : Bool
  panicked : Bool
  deriving Repr, DecidableEq

/-- `Scanner::advance`: consume one char (bumping `line` on a newline),
increment `cursor` and re-slice `look_ahead = &original[cursor..]`; at the
end of input the incremented cursor is out of bounds and the re-slice
panics. -/
def ScState.advance (s : ScState) : ScState :=
  if s.original.length ≤ s.cursor then
    { s with panicked := true, cursor := s.cursor + 1 }
  else
    { s with
      cursor := s.cursor + 1
      line := if s.original[s.cursor]? = some '\n' then s.line + 1 else s.line }

lemma ScState.advance_original (s : ScState) : s.advance.original = s.original := by
  unfold ScState.advance; split <;> rfl

lemma ScState.advance_cursor (s : ScState) : s.advance.cursor = s.cursor + 1 := by
  unfold ScState.advance; split <;> rfl

/-- The loop of `Scanner::take_until`, with an explicit iteration bound so
that the kernel can evaluate it; `takeUntilF_congr` below shows any bound
at least `remaining + 1` gives the same result, so the bound is not an
observable part of the model. -/
def takeUntilF (f : Char → Bool) : Nat → ScState → ScState
  | 0, s => s
  | fuel + 1, s =>
    match s.original[s.cursor]? with
    | none => s
    | some c => if f c then s else takeUntilF f fuel s.advance

/-- `Scanner::take_until`: advance while the predicate rejects the peeked
char, stopping at end of input (each iteration consumes one char, so
`remaining + 1` iterations always suffice). -/
def takeUntil (f : Char → Bool) (s : ScState) : ScState :=
  takeUntilF f (s.original.length + 1 - s.cursor) s

lemma peek_none_of_ge (s : ScState) (h : s.original.length ≤ s.cursor) :
    s.original[s.cursor]? = none :=
  List.getElem?_eq_none h

lemma takeUntilF_congr (f : Char → Bool) :
    ∀ (n m : Nat) (s : ScState), s.original.length + 1 - s.cursor ≤ n →
      s.original.length + 1 - s.cursor ≤ m → takeUntilF f n s = takeUntilF f m s := by
  intro n
  induction n with
  | zero =>
    intro m s hn _
    have hge : s.original.length ≤ s.cursor := by omega
    cases m with
    | zero => rfl
    | succ m => simp [takeUntilF, peek_none_of_ge s hge]
  | succ n ih =>
    intro m s hn hm
    cases m with
    | zero =>
      have hge : s.original.length ≤ s.cursor := by omega
      simp [takeUntilF, peek_none_of_ge s hge]
    | succ m =>
      simp only [takeUntilF]
      rcases hp : s.original[s.cursor]? with _ | c
      · rfl
      · have hlt : s.cursor < s.original.length := by
          by_contra hge
          rw [peek_none_of_ge s (Nat.le_of_not_lt hge)] at hp
          exact Option.noConfusion hp
        dsimp only
        by_cases hf : f c = true
        · rw [if_pos hf, if_pos hf]
        · rw [if_neg hf, if_neg hf]
          exact ih m s.advance
            (by rw [ScState.advance_original, ScState.advance_cursor]; omega)
            (by rw [ScState.advance_original, ScState.advance_cursor]; omega)

lemma takeUntilF_original (f : Char → Bool) :
    ∀ (n : Nat) (s : ScState), (takeUntilF f n s).original = s.original := by
  intro n
  induction n with
  | zero => intro s; rfl
  | succ n ih =>
    intro s
    simp only [takeUntilF]
    rcases hp : s.original[s.cursor]? with _ | c
    · rfl
    · dsimp only
      by_cases hf : f c = true
      · rw [if_pos hf]
      · rw [if_neg hf, ih s.advance, ScState.advance_original]

lemma takeUntilF_cursor_le (f : Char → Bool) :
    ∀ (n : Nat) (s : ScState), s.cursor ≤ (takeUntilF f n s).cursor := by
  intro n
  induction n with
  | zero => intro s; exact Nat.le_refl _
  | succ n ih =>
    intro s
    simp only [takeUntilF]
    rcases hp : s.original[s.cursor]? with _ | c
    · exact Nat.le_refl _
    · dsimp only
      by_cases hf : f c = true
      · rw [if_pos hf]
      · rw [if_neg hf]
        have h1 := ih s.advance
        have h2 := s.advance_cursor
        omega

/-- `Scanner::take_through`: `take_until` then one more `advance` (the
latter panics when `take_until` stopped at end of input). -/
def takeThrough (f : Char → Bool) (s : ScState) : ScState :=
  (takeUntil f s).advance

/-- `Ignoreable` from scanner.rs. -/
inductive Ignoreable
  | comment
  | whitespace
  deriving Repr, DecidableEq

/-- Whether the char under the cursor is whitespace (`ch.is_whitespace()`
applied to the peeked char; `false` at end of input). -/
def ScState.peekIsWhitespace (s : ScState) : Bool :=
  match s.original[s.cursor]? with
  | some ch => ch.isWhitespace
  | none => false

/-- `Scanner::check_for_ignorable`: a two-char lookahead slice detects `//`
or leading whitespace; with fewer than two chars left only the peeked char
is tested.  (Rust `str::get` on an out-of-range span returns `None`, no
panic.) -/
def checkForIgnorable (s : ScState) : Option Ignoreable :=
  if s.cursor + 2 ≤ s.original.length then
    if s.original[s.cursor]? = some '/' ∧ s.original[s.cursor + 1]? = some '/' then
      some .comment
    else if s.peekIsWhitespace then some .whitespace else none
  else if s.peekIsWhitespace then some .whitespace else none

lemma cursor_lt_of_comment (s : ScState)
    (h : checkForIgnorable s = some .comment) : s.cursor < s.original.length := by
  unfold checkForIgnorable at h
  split at h
  · omega
  · split at h <;> simp at h

lemma peek_ws_of_whitespace (s : ScState)
    (h : checkForIgnorable s = some .whitespace) :
    ∃ ch, s.original[s.cursor]? = some ch ∧ ch.isWhitespace := by
  have hws : s.peekIsWhitespace = true := by
    unfold checkForIgnorable at h
    split at h
    · split at h
      · simp at h
      · split at h
        · assumption
        · simp at h
    · split at h
      · assumption
      · simp at h
  unfold ScState.peekIsWhitespace at hws
  rcases hg : s.original[s.cursor]? with _ | ch
  · rw [hg] at hws; exact Bool.noConfusion hws
  · rw [hg] at hws; exact ⟨ch, rfl, hws⟩

/-- The loop of `Scanner::skip_whitespace`, with an explicit iteration
bound (each iteration consumes at least one char; see
`skipWhitespaceF_congr`). -/
def skipWhitespaceF : Nat → ScState → ScState
  | 0, s => s
  | fuel + 1, s =>
    match checkForIgnorable s with
    | none => s
    | some .comment => skipWhitespaceF fuel (takeThrough (fun c => c = '\n') s)
    | some .whitespace => skipWhitespaceF fuel (takeUntil (fun c => !c.isWhitespace) s)

/-- `Scanner::skip_whitespace`: loop consuming comments (to and including
the newline) and whitespace runs. -/
def skipWhitespace (s : ScState) : ScState :=
  skipWhitespaceF (s.original.length + 1 - s.cursor) s

lemma takeUntil_original (f : Char → Bool) (s : ScState) :
    (takeUntil f s).original = s.original := takeUntilF_original f _ s

lemma takeUntil_cursor_le (f : Char → Bool) (s : ScState) :
    s.cursor ≤ (takeUntil f s).cursor := takeUntilF_cursor_le f _ s

lemma comment_step_bound (s : ScState) (h : checkForIgnorable s = some .comment) :
    (takeThrough (fun c => c = '\n') s).original = s.original ∧
      s.cursor < (takeThrough (fun c => c = '\n') s).cursor := by
  unfold takeThrough
  rw [ScState.advance_original, ScState.advance_cursor, takeUntil_original]
  have := takeUntil_cursor_le (fun c => c = '\n') s
  exact ⟨rfl, by omega⟩

lemma whitespace_step_bound (s : ScState)
    (h : checkForIgnorable s = some .whitespace) :
    (takeUntil (fun c => !c.isWhitespace) s).original = s.original ∧
      s.cursor < (takeUntil (fun c => !c.isWhitespace) s).cursor := by
  rcases peek_ws_of_whitespace s h with ⟨ch, hch, hchws⟩
  have hcur : s.cursor < s.original.length := by
    by_contra hge
    rw [peek_none_of_ge s (Nat.le_of_not_lt hge)] at hch
    exact Option.noConfusion hch
  refine ⟨takeUntil_original _ s, ?_⟩
  unfold takeUntil
  have hbound : s.original.length + 1 - s.cursor = (s.original.length - s.cursor) + 1 := by
    omega
  rw [hbound]
  simp only [takeUntilF, hch]
  dsimp only
  rw [if_neg (by simp [hchws])]
  have h1 := takeUntilF_cursor_le (fun c => !c.isWhitespace)
    (s.original.length - s.cursor) s.advance
  have h2 := s.advance_cursor
  omega

lemma skipWhitespaceF_congr :
    ∀ (n m : Nat) (s : ScState), s.original.length + 1 - s.cursor ≤ n →
      s.original.length + 1 - s.cursor ≤ m → skipWhitespaceF n s = skipWhitespaceF m s := by
  intro n
  induction n with
  | zero =>
    intro m s hn _
    have hge : s.original.length ≤ s.cursor := by omega
    have hnone : checkForIgnorable s = none := by
      unfold checkForIgnorable ScState.peekIsWhitespace
      rw [peek_none_of_ge s hge]
      split
      · omega
      · rfl
    cases m with
    | zero => rfl
    | succ m => simp [skipWhitespaceF, hnone]
  | succ n ih =>
    intro m s hn hm
    cases m with
    | zero =>
      have hge : s.original.length ≤ s.cursor := by omega
      have hnone : checkForIgnorable s = none := by
        unfold checkForIgnorable ScState.peekIsWhitespace
        rw [peek_none_of_ge s hge]
        split
        · omega
        · rfl
      simp [skipWhitespaceF, hnone]
    | succ m =>
      simp only [skipWhitespaceF]
      rcases hc : checkForIgnorable s with _ | ig
      · rfl
      · cases ig with
        | comment =>
          rcases comment_step_bound s hc with ⟨ho, hlt⟩
          have hcur := cursor_lt_of_comment s hc
          exact ih m _ (by rw [ho]; omega) (by rw [ho]; omega)
        | whitespace =>
          rcases whitespace_step_bound s hc with ⟨ho, hlt⟩
          have hcur : s.cursor < s.original.length := by
            rcases peek_ws_of_whitespace s hc with ⟨ch, hch, -⟩
            by_contra hge
            rw [peek_none_of_ge s (Nat.le_of_not_lt hge)] at hch
            exact Option.noConfusion hch
          exact ih m _ (by rw [ho]; omega) (by rw [ho]; omega)

/-- Result of `TryFrom<char> for TokenType`: either a one-char token kind or
one of the `MatchError` prompts (two-char candidate, string, number,
identifier, unrecognized byte). -/
inductive CharClass
  | simple (k : TokenType)
  | maybeWithNext (yes no : TokenType)
  | strCls
  | numCls
  | identCls (c : Char)
  | errCls
  deriving Repr, DecidableEq

/-- `TryFrom<char> for TokenType` from scanner.rs. -/
def charClass (ch : Char) : CharClass :=
  if ch = '(' then .simple .LeftParen
  else if ch = ')' then .simple .RightParen
  else if ch = Char.ofNat 123 then .simple .LeftBrace
  else if ch = Char.ofNat 125 then .simple .RightBrace
  else if ch = ',' then .simple .Comma
  else if ch = '.' then .simple .Period
  else if ch = '-' then .simple .Minus
  else if ch = '+' then .simple .Plus
  else if ch = ';' then .simple .Semi
  else if ch = '/' then .simple .Slash
  else if ch = '*' then .simple .Star
  else if ch = '!' then .maybeWithNext .BangEq .Bang
  else if ch = '=' then .maybeWithNext .EqEq .Eq
  else if ch = '>' then .maybeWithNext .GreaterEq .Greater
  else if ch = '<' then .maybeWithNext .LessEq .Less
  else if ch = '"' then .strCls
  else if ch.isDigit then .numCls
  else if ch.isAlpha then .identCls ch
  else .errCls

/-- `Scanner::token`: slice `original[start..cursor]` at the current line. -/
def ScState.mkToken (s : ScState) (kind : TokenType) (start : Nat) : Token :=
  { kind, line := s.line, slice := (s.original.drop start).take (s.cursor - start) }

/-- `Scanner::eat`: consume the peeked char when it matches. -/
def eatChar (expect : Char) (s : ScState) : Bool × ScState :=
  match s.original[s.cursor]? with
  | some ch => if expect = ch then (true, s.advance) else (false, s)
  | none => (false, s)

/-- Rust `char::is_numeric` restricted to ASCII sources. -/
def rustIsNumeric (c : Char) : Bool := c.isDigit

/-- `Scanner::fallback_ident`: consume the trailing alphanumeric run and
emit an `Ident` token from `start`. -/
def fallbackIdent (start : Nat) (s : ScState) : Token × ScState :=
  let s1 := takeUntil (fun c => !c.isAlpha && !rustIsNumeric c) s
  (s1.mkToken .Ident start, s1)

/-- `Scanner::single_option_keyword`: advance past the dispatch letter, eat
the suffix, then require a non-alphanumeric boundary; any failure falls back
to an identifier token. -/
def singleOptionKeyword (suffix : List Char) (start : Nat) (kind : TokenType)
    (s : ScState) : Token × ScState :=
  go suffix s.advance
where
  go : List Char → ScState → Token × ScState
    | [], s2 =>
      match s2.original[s2.cursor]? with
      | some ch =>
        if ch.isAlphanum then fallbackIdent start s2 else (s2.mkToken kind start, s2)
      | none => (s2.mkToken kind start, s2)
    | c :: rest, s2 =>
      match eatChar c s2 with
      | (true, s3) => go rest s3
      | (false, s3) => fallbackIdent start s3

/-- `Scanner::f_keyword`: two-level dispatch for `false` / `for` / `fun`. -/
def fKeyword (s : ScState) : Token × ScState :=
  let start := s.cursor
  let s1 := s.advance
  match s1.original[s1.cursor]? with
  | some 'a' => singleOptionKeyword ['l', 's', 'e'] start .False s1
  | some 'o' => singleOptionKeyword ['r'] start .For s1
  | some 'u' => singleOptionKeyword ['n'] start .Fun s1
  | _ => fallbackIdent start s1

/-- `Scanner::t_keyword`: two-level dispatch for `this` / `true`. -/
def tKeyword (s : ScState) : Token × ScState :=
  let start := s.cursor
  let s1 := s.advance
  match s1.original[s1.cursor]? with
  | some 'h' => singleOptionKeyword ['i', 's'] start .This s1
  | some 'r' => singleOptionKeyword ['u', 'e'] start .True s1
  | _ => fallbackIdent start s1

/-- `Scanner::ident`: first-letter dispatch into the hand-rolled keyword
trie, defaulting to `fallback_ident`. -/
def identTok (startCh : Char) (s : ScState) : Token × ScState :=
  if startCh = 'a' then singleOptionKeyword ['n', 'd'] s.cursor .And s
  else if startCh = 'c' then singleOptionKeyword ['l', 'a', 's', 's'] s.cursor .Class s
  else if startCh = 'e' then singleOptionKeyword ['l', 's', 'e'] s.cursor .Else s
  else if startCh = 'f' then fKeyword s
  else if startCh = 'i' then singleOptionKeyword ['f'] s.cursor .If s
  else if startCh = 'n' then singleOptionKeyword ['i', 'l'] s.cursor .Nil s
  else if startCh = 'o' then singleOptionKeyword ['r'] s.cursor .Or s
  else if startCh = 'p' then singleOptionKeyword ['r', 'i', 'n', 't'] s.cursor .Print s
  else if startCh = 'r' then singleOptionKeyword ['e', 't', 'u', 'r', 'n'] s.cursor .Return s
  else if startCh = 's' then singleOptionKeyword ['u', 'p', 'e', 'r'] s.cursor .Super s
  else if startCh = 't' then tKeyword s
  else if startCh = 'v' then singleOptionKeyword ['a', 'r'] s.cursor .Var s
  else if startCh = 'w' then singleOptionKeyword ['h', 'i', 'l', 'e'] s.cursor .While s
  else fallbackIdent s.cursor s

/-- `Scanner::number`: integer digits, then a fractional part only when the
char right after the dot is a digit; the token records the line captured at
entry. -/
def numberTok (s : ScState) : Token × ScState :=
  let start := s.cursor
  let line := s.line
  let s1 := s.advance
  let s2 := takeUntil (fun c => !c.isDigit) s1
  let s3 :=
    match s2.original[s2.cursor]? with
    | some c =>
      if c = '.' then
        match s2.original[s2.cursor + 1]? with
        | some c2 => if c2.isDigit then s2.advance else s2
        | none => s2
      else s2
    | none => s2
  let s4 := takeUntil (fun c => !c.isDigit) s3
  ({ kind := .Number, line := line,
     slice := (s4.original.drop start).take (s4.cursor - start) }, s4)

/-- `Scanner::string`: consume the opening quote, then `take_through` the
closing quote.  There is no end-of-input check: on an unterminated literal
the final `advance` re-slices past the end of the source and panics (the
embedding's sticky `panicked` flag). -/
def stringTok (s : ScState) : Token × ScState :=
  let start := s.cursor
  let s1 := s.advance
  let s2 := takeThrough (fun c => c = '"') s1
  (s2.mkToken .String start, s2)

/-- A scanner result: `Result<Token, ScannerError>` from scanner.rs. -/
inductive ScRes
  | tok (t : Token)
  | err (e : ScannerError)
  deriving Repr, DecidableEq

/-- `Scanner::next_token`: skip ignorables, classify the peeked char and
produce the next token (or error).  At end of input it produces the EOF
token with an empty slice. -/
def nextToken (s0 : ScState) : ScRes × ScState :=
  let s := skipWhitespace s0
  match s.original[s.cursor]? with
  | none => (.tok { kind := .Eof, slice := [], line := s.line }, s)
  | some ch =>
    match charClass ch with
    | .simple kind =>
      let start := s.cursor
      let s1 := s.advance
      (.tok (s1.mkToken kind start), s1)
    | .maybeWithNext yes no =>
      let start := s.cursor
      let s1 := s.advance
      match s1.original[s1.cursor]? with
      | some c =>
        if c = '=' then
          let s2 := s1.advance
          (.tok (s2.mkToken yes start), s2)
        else (.tok (s1.mkToken no start), s1)
      | none => (.tok (s1.mkToken no start), s1)
    | .strCls =>
      let r := stringTok s
      (.tok r.1, r.2)
    | .numCls =>
      let r := numberTok s
      (.tok r.1, r.2)
    | .identCls c =>
      let r := identTok c s
      (.tok r.1, r.2)
    | .errCls => (.err ⟨s.line, s.cursor⟩, s)

/-- One observation of `<Scanner as Iterator>::next`: a token, an error, a
panic (the Rust process would have died inside `next_token`), or `None`. -/
inductive ScStep
  | tok (t : Token)
  | err (e : ScannerError)
  | panicStep
  | done
  deriving Repr, DecidableEq

/-- `<Scanner as Iterator>::next`: `None` once `found_eof` is set; otherwise
run `next_token`, setting `found_eof` when the EOF token is produced.  A
panic inside `next_token` surfaces as `panicStep`. -/
def scNext (s : ScState) : ScStep × ScState :=
  if s.foundEof then (.done, s)
  else
    match nextToken s with
    | (r, s2) =>
      if s2.panicked then (.panicStep, s2)
      else
        match r with
        | .tok t =>
          if t.kind = .Eof then (.tok t, { s2 with foundEof := true }) else (.tok t, s2)
        | .err e => (.err e, s2)

/-- `Scanner::new`. -/
def scInit (src : String) : ScState :=
  { original := src.toList, cursor := 0, line := 1, foundEof := false, panicked := false }

/-- The `n`-th (0-based) observation of the iterator; once a call panics the
process is gone, so every later observation stays `panicStep`. -/
def scRun (s : ScState) : Nat → ScStep
  | 0 => (scNext s).1
  | n + 1 =>
    match scNext s with
    | (.panicStep, _) => .panicStep
    | (_, s') => scRun s' n

/-! ### Values — `roxc/src/value.rs` -/

/-- `Value`: `Number(f64)` (embedded as `ℚ`), `Boolean`, `Nil`,
`Obj { idx }` (heap handle). -/
inductive Value
  | Number (n : ℚ)
  | Boolean (b : Bool)
  | Nil
  | Obj (idx : Nat)
  deriving Repr, DecidableEq

/-- `Obj`: heap objects, `String(Cow<str>)` or `HashTable(string → Value)`. -/
inductive Obj
  | String (s : List Char)
  | HashTable (entries : List (List Char × Value))
  deriving Repr, DecidableEq

/-- `impl Add for Value`: numbers add, `Nil + Nil = Nil`, everything else is
`unimplemented!` (modelled as `none`, a panic). -/
def valueAdd : Value → Value → Option Value
  | .Number l, .Number r => some (.Number (l + r))
  | .Nil, .Nil => some .Nil
  | _, _ => none

/-- `impl Sub for Value`: numbers only, otherwise `unimplemented!`. -/
def valueSub : Value → Value → Option Value
  | .Number l, .Number r => some (.Number (l - r))
  | _, _ => none

/-- `impl Mul for Value`: numbers only, otherwise `unimplemented!`. -/
def valueMul : Value → Value → Option Value
  | .Number l, .Number r => some (.Number (l * r))
  | _, _ => none

/-- `impl Div for Value`: numbers only, otherwise `unimplemented!`.  (Rust
divides IEEE doubles, so 1/0 is `inf`; `ℚ` division by zero yields 0.  No
claim settled here divides by zero.) -/
def valueDiv : Value → Value → Option Value
  | .Number l, .Number r => some (.Number (l / r))
  | _, _ => none

/-- `impl Not for Value`: booleans negate, `Nil` is truthy-false, everything
else is truthy-true. -/
def valueNot : Value → Value
  | .Boolean b => .Boolean (!b)
  | .Nil => .Boolean true
  | _ => .Boolean false

/-- `impl PartialOrd for Value`: only number/number compare. -/
def valuePartialCmp : Value → Value → Option Ordering
  | .Number l, .Number r =>
    some (if l < r then .lt else if l = r then .eq else .gt)
  | _, _ => none

/-- Rust `lhs < rhs` via `PartialOrd` (false when incomparable). -/
def valueLt (a b : Value) : Bool := valuePartialCmp a b = some .lt

/-- Rust `lhs > rhs` via `PartialOrd` (false when incomparable). -/
def valueGt (a b : Value) : Bool := valuePartialCmp a b = some .gt

/-- Derived `PartialEq for Value` (note: `Obj` compares by heap index
here; the VM's `Eq` opcode intercepts the `Obj`/`Obj` case separately). -/
def valueEqB : Value → Value → Bool
  | .Number l, .Number r => l = r
  | .Boolean l, .Boolean r => l = r
  | .Nil, .Nil => true
  | .Obj l, .Obj r => l = r
  | _, _ => false

/-! ### Chunk — `roxc/src/chunk.rs` -/

/-- `OpCode` from roxc/src/op.rs. -/
inductive OpCode
  | Constant (idx : Nat)
  | Return
  | Negate
  | Add
  | Sub
  | Mul
  | Div
  | True
  | False
  | Nil
  | Not
  | Eq
  | Gtr
  | Less
  deriving Repr, DecidableEq

/-- `Chunk`: code, constant pool, object heap and the line run-list. -/
structure Chunk where
  code : List OpCode
  values : List Value
  heap : List Obj
  lines : RunList
  deriving Repr, DecidableEq

/-- The empty chunk (`Chunk::default`). -/
def Chunk.empty : Chunk := ⟨[], [], [], []⟩

/-- `Chunk::write`: append an instruction and push its line. -/
def Chunk.write (c : Chunk) (byte : OpCode) (line : Nat) : Chunk :=
  { c with code := c.code ++ [byte], lines := runPush c.lines line }

/-- `Chunk::add_constant`: push and return the new constant's index. -/
def Chunk.addConstant (c : Chunk) (v : Value) : Nat × Chunk :=
  (c.values.length, { c with values := c.values ++ [v] })

/-- `Chunk::add_obj`: push and return the new heap object's index. -/
def Chunk.addObj (c : Chunk) (o : Obj) : Nat × Chunk :=
  (c.heap.length, { c with heap := c.heap ++ [o] })

/-! ### Pratt compiler — `roxc/src/compiler.rs`

`Prec` is an enum isomorphic (with its derived `Ord` and the
`Into<usize>`/`From<usize>` pair) to `0..=10`; it is embedded directly as
those numerals. -/

/-- `Prec::Assignment`. -/
def precAssignment : Nat := 1

/-- `Prec::Unary`. -/
def precUnary : Nat := 8

/-- `Compiler::determine_precedence` (note the source maps every comparison
operator, `<` `>` included, to `Prec::Equality`). -/
def determinePrecedence : TokenType → Nat
  | .Minus | .Plus => 6
  | .Slash | .Star => 7
  | .EqEq | .BangEq | .LessEq | .GreaterEq | .Greater | .Less => 4
  | _ => 0

/-- Which prefix parser `Compiler::prefix` dispatches to. -/
inductive PrefixFn
  | grouping
  | unary
  | numberF
  | stringF
  | literal
  deriving Repr, DecidableEq

/-- `Compiler::prefix` dispatch table. -/
def prefixRule : TokenType → Option PrefixFn
  | .LeftParen => some .grouping
  | .Minus | .Bang => some .unary
  | .Number => some .numberF
  | .String => some .stringF
  | .True | .False | .Nil => some .literal
  | _ => none

/-- `Compiler::infix` dispatch table (every entry is `Compiler::binary`;
`Number` really is in the source's table). -/
def infixRule : TokenType → Bool
  | .Minus | .Plus | .Slash | .Star | .Number | .EqEq | .BangEq | .LessEq
  | .GreaterEq | .Greater | .Less => true
  | _ => false

/-- The opcode (and optional trailing `Not`) `Compiler::binary` emits. -/
def binaryOps : TokenType → Option (OpCode × Option OpCode)
  | .Plus => some (.Add, none)
  | .Minus => some (.Sub, none)
  | .Star => some (.Mul, none)
  | .Slash => some (.Div, none)
  | .BangEq => some (.Eq, some .Not)
  | .EqEq => some (.Eq, none)
  | .Greater => some (.Gtr, none)
  | .GreaterEq => some (.Less, some .Not)
  | .Less => some (.Less, none)
  | .LessEq => some (.Gtr, some .Not)
  | _ => none

/-- Accumulated digit value of an ASCII digit run. -/
def digitsVal (l : List Char) : Nat :=
  l.foldl (fun a c => a * 10 + (c.toNat - 48)) 0

/-- Rust `str::parse::<f64>` restricted to the scanner's number slices
(`\d+(\.\d+)?`), which such a parse never rejects; embedded exactly in `ℚ`. -/
def parseNum (l : List Char) : Option ℚ :=
  let intPart := l.takeWhile (fun c => c ≠ '.')
  let rest := l.dropWhile (fun c => c ≠ '.')
  if intPart.all Char.isDigit ∧ intPart ≠ [] then
    match rest with
    | [] => some ((digitsVal intPart : ℚ))
    | _ :: frac =>
      if frac.all Char.isDigit ∧ frac ≠ [] then
        some ((digitsVal intPart : ℚ) + (digitsVal frac : ℚ) / ((10 : ℚ) ^ frac.length))
      else none
  else none

/-- The compiler state: the token source, the chunk being emitted, the
`prev`/`current` token pair, the recorded scanner error and `panic_mode`.
`panicked` records a Rust panic (`unreachable!` or a scanner panic). -/
structure CompState where
  scanner : ScState
  chunk : Chunk
  current : Token
  prev : Token
  err : Option ScannerError
  panicMode : Bool
  panicked : Bool
  deriving Repr, DecidableEq

/-- `Token::eof`. -/
def Token.eofTok (line : Nat) : Token := { kind := .Eof, slice := [], line }

/-- `Compiler::new`. -/
def compNew (src : String) : CompState :=
  { scanner := scInit src, chunk := Chunk.empty, current := Token.eofTok 0,
    prev := Token.eofTok 0, err := none, panicMode := false, panicked := false }

/-- `Compiler::advance`: pull the next scanner item; tokens shift
`current → prev`, an error is recorded, exhaustion leaves the pair as-is,
and a scanner panic kills the process. -/
def compAdvance (c : CompState) : CompState :=
  match scNext c.scanner with
  | (.tok t, s') => { c with scanner := s', prev := c.current, current := t }
  | (.err e, s') => { c with scanner := s', err := some e }
  | (.done, s') => { c with scanner := s' }
  | (.panicStep, s') => { c with scanner := s', panicked := true }

/-- `Compiler::error`: sets `panic_mode` (the diagnostic itself goes to
stderr and is not modelled). -/
def compError (c : CompState) : CompState := { c with panicMode := true }

/-- `Compiler::eat`: advance when `current` has the wanted kind. -/
def compEat (kind : TokenType) (c : CompState) : Bool × CompState :=
  if c.current.kind = kind then (true, compAdvance c) else (false, c)

/-- `Compiler::emit_simple_op` (at `current`'s line). -/
def emitSimpleOp (code : OpCode) (second : Option OpCode) (c : CompState) : CompState :=
  let c1 := { c with chunk := c.chunk.write code c.current.line }
  match second with
  | some s => { c1 with chunk := c1.chunk.write s c1.current.line }
  | none => c1

/-- `Compiler::emit_constant`. -/
def emitConstant (v : Value) (c : CompState) : CompState :=
  let p := c.chunk.addConstant v
  emitSimpleOp (.Constant p.1) none { c with chunk := p.2 }

/-- `Compiler::literal` (an `unreachable!` on any other token kind panics). -/
def compLiteral (c : CompState) : CompState :=
  match c.prev.kind with
  | .False => emitSimpleOp .False none c
  | .True => emitSimpleOp .True none c
  | .Nil => emitSimpleOp .Nil none c
  | _ => { c with panicked := true }

/-- `Compiler::number`: emit the parsed constant; a failed parse silently
emits nothing. -/
def compNumber (c : CompState) : CompState :=
  match parseNum c.prev.slice with
  | some n => emitConstant (.Number n) c
  | none => c

/-- `Compiler::string`: strip the surrounding quotes, intern the heap
string and emit its constant. -/
def compString (c : CompState) : CompState :=
  let inner := (c.prev.slice.drop 1).take (c.prev.slice.length - 2)
  let p := c.chunk.addObj (.String inner)
  emitConstant (.Obj p.1) { c with chunk := p.2 }

mutual

/-- `Compiler::expression`: parse at `Prec::Assignment`.  (All the mutually
recursive compiler functions take fuel; the concrete runs in this file get
enough fuel for the recursion never to bottom out.) -/
def compExpression : Nat → CompState → CompState
  | 0, c => c
  | fuel + 1, c => compPrecedence fuel precAssignment c

/-- `Compiler::precedence`: consume a prefix rule for `prev`, then infix
rules while `current` binds at least as tightly as `minPrec`. -/
def compPrecedence : Nat → Nat → CompState → CompState
  | 0, _, c => c
  | fuel + 1, minPrec, c =>
    let c1 := compAdvance c
    match prefixRule c1.prev.kind with
    | some pk => compInfixLoop fuel minPrec (compRunPrefix fuel pk c1)
    | none => compError c1

/-- The `while precedence <= determine_precedence(current)` loop inside
`Compiler::precedence`. -/
def compInfixLoop : Nat → Nat → CompState → CompState
  | 0, _, c => c
  | fuel + 1, minPrec, c =>
    if minPrec ≤ determinePrecedence c.current.kind then
      let c1 := compAdvance c
      if infixRule c1.prev.kind then compInfixLoop fuel minPrec (compBinary fuel c1)
      else compError c1
    else c

/-- Dispatch through the prefix table. -/
def compRunPrefix : Nat → PrefixFn → CompState → CompState
  | 0, _, c => c
  | fuel + 1, pk, c =>
    match pk with
    | .grouping => compGrouping fuel c
    | .unary => compUnary fuel c
    | .numberF => compNumber c
    | .stringF => compString c
    | .literal => compLiteral c

/-- `Compiler::grouping`: inner expression then a required `)`. -/
def compGrouping : Nat → CompState → CompState
  | 0, c => c
  | fuel + 1, c =>
    let c1 := compExpression fuel c
    match compEat .RightParen c1 with
    | (true, c2) => c2
    | (false, c2) => compError c2

/-- `Compiler::unary`: compile the operand at `Prec::Unary`, then emit
`Negate`/`Not`. -/
def compUnary : Nat → CompState → CompState
  | 0, c => c
  | fuel + 1, c =>
    let op := c.prev.kind
    let c1 := compPrecedence fuel precUnary c
    match op with
    | .Minus => emitSimpleOp .Negate none c1
    | .Bang => emitSimpleOp .Not none c1
    | _ => c1

/-- `Compiler::binary`: compile the right operand one level tighter, then
emit the operator's opcode(s). -/
def compBinary : Nat → CompState → CompState
  | 0, c => c
  | fuel + 1, c =>
    let op := c.prev.kind
    let prec := determinePrecedence op
    let c1 := compPrecedence fuel (prec + 1) c
    match binaryOps op with
    | some (first, second) => emitSimpleOp first second c1
    | none => c1

end

/-- `Compiler::compile`: prime the token pair, compile one expression, eat
EOF and emit the final `Return`. -/
def compile (fuel : Nat) (src : String) : CompState :=
  let c0 := compNew src
  let c1 := compAdvance c0
  let c2 := compExpression fuel c1
  let c3 := (compEat .Eof c2).2
  emitSimpleOp .Return none c3

/-! ### Stack VM — `roxc/src/vm.rs`

The value stack is a `VecDeque` used via `push_back`/`pop_back`/`back`; it
is embedded as a list whose HEAD is the deque's back (the top of stack), so
`VecDeque::get(i)` reads our index `length - 1 - i`. -/

/-- Rust `usize` subtraction under the release profile: wrap mod `2^64`
(`operands_match` computes `stack.len() - 2`, which underflows on a short
stack; a debug build would abort there instead). -/
def wrapSub64 (a b : Nat) : Nat := (a + (2 ^ 64 - b)) % 2 ^ 64

/-- `VecDeque::get` (front-indexed) on the back-headed list embedding. -/
def dequeGet (stack : List Value) (i : Nat) : Option Value :=
  if h : i < stack.length then some (stack.get ⟨stack.length - 1 - i, by omega⟩)
  else none

/-- `VM::operands_match`: the top two stack slots (`back()` and
`get(len - 2)`) hold the same tag. -/
def operandsMatch (stack : List Value) : Bool :=
  match stack.head?, dequeGet stack (wrapSub64 stack.length 2) with
  | some (.Number _), some (.Number _) => true
  | some (.Boolean _), some (.Boolean _) => true
  | some .Nil, some .Nil => true
  | some (.Obj _), some (.Obj _) => true
  | _, _ => false

/-- `VM::pop_operand` (`None` becomes the "not enough operands" error at
the call sites). -/
def popOperand (stack : List Value) : Option (Value × List Value) :=
  match stack with
  | v :: rest => some (v, rest)
  | [] => none

/-- Decimal rendering of a `ℚ`, standing in for Rust's shortest-round-trip
`f64` display; exact on integers and terminating decimals, which covers
every number printed in this file. -/
def fmtRat (q : ℚ) : String :=
  let sign := if q < 0 then "-" else ""
  let a := q.num.natAbs
  let b := q.den
  if b = 1 then sign ++ toString a
  else
    match (List.range 21).find? (fun k => (a * 10 ^ k) % b = 0) with
    | some k =>
      let scaled := a * 10 ^ k / b
      let intPart := scaled / 10 ^ k
      let fracPart := scaled % 10 ^ k
      let fracStr := toString fracPart
      sign ++ toString intPart ++ "." ++
        String.mk (List.replicate (k - fracStr.length) '0') ++ fracStr
    | none => sign ++ toString a ++ "/" ++ toString b

/-- `VM::format_value` (`None` result models the panic of an out-of-range
heap index; the fuel bounds the heap-table recursion). -/
def formatValue (heap : List Obj) : Nat → Option Value → Nat → Option String
  | _, none, _ => some "nil"
  | _, some (.Number n), _ => some (fmtRat n)
  | _, some .Nil, _ => some "nil"
  | _, some (.Boolean b), _ => some (if b then "true" else "false")
  | fuel, some (.Obj idx), indent =>
    match heap[idx]? with
    | some (.String s) => some (String.mk s)
    | some (.HashTable entries) =>
      match fuel with
      | 0 => none
      | fuel + 1 =>
        let header := String.mk [Char.ofNat 123, '\n'] ++
          String.mk (List.replicate (indent + 1) ' ' ++ List.replicate (indent + 1) ' ')
        let body := entries.foldl
          (fun acc e =>
            match acc, formatValue heap fuel (some e.2) (indent + 2) with
            | some a, some v => some (a ++ String.mk e.1 ++ ": " ++ v)
            | _, _ => none)
          (some "")
        match body with
        | some bd => some (header ++ bd ++ String.mk [Char.ofNat 125])
        | none => none
    | none => none

/-- The VM state during `run`: the chunk, the instruction pointer and the
value stack (head = top). -/
structure VmState where
  chunk : Chunk
  ip : Nat
  stack : List Value
  deriving Repr, DecidableEq

/-- Result of executing one instruction. -/
inductive VmStepRes
  | continueR (st : VmState)
  | haltR (printed : String)
  | errorR (msg : String)
  | panicR
  deriving Repr, DecidableEq

/-- `VM::runtime_err`: the diagnostic fetches the current line with
`lines.get_unchecked(self.ip)`, which panics when `ip` is out of the line
table's range; otherwise the `Error::Runtime` value is returned. -/
def runtimeErr (st : VmState) (msg : String) : VmStepRes :=
  match runGet st.chunk.lines st.ip with
  | some _ => .errorR msg
  | none => .panicR

/-- Was this step a `runtime_err` return? -/
def VmStepRes.isRuntimeErr : VmStepRes → Bool
  | .errorR _ => true
  | _ => false

/-- One arm of the `match inst` in `VM::run`; `st` already has `ip`
incremented past the instruction, exactly as the diagnostics see it. -/
def vmStepInst (inst : OpCode) (st : VmState) : VmStepRes :=
  match inst with
  | .Return =>
    let last := st.stack.head?
    match formatValue st.chunk.heap (st.chunk.heap.length + 1) last 0 with
    | some out => .haltR (out ++ "\n")
    | none => .panicR
  | .Constant idx =>
    match st.chunk.values[idx]? with
    | some c => .continueR { st with stack := c :: st.stack }
    | none => .panicR
  | .Negate =>
    match st.stack with
    | .Number n :: rest => .continueR { st with stack := .Number (-n) :: rest }
    | _ => runtimeErr st "Operand must be a number."
  | .Add =>
    if !operandsMatch st.stack then runtimeErr st "Cannot add unmatched operands"
    else
      match popOperand st.stack with
      | none => runtimeErr st "Invalid operation, not enough operands"
      | some (lhs, s1) =>
        match popOperand s1 with
        | none => runtimeErr st "Invalid operation, not enough operands"
        | some (rhs, s2) =>
          match lhs, rhs with
          | .Obj lIdx, .Obj rIdx =>
            match st.chunk.heap[lIdx]?, st.chunk.heap[rIdx]? with
            | some (.String s1h), some (.String s2h) =>
              let p := st.chunk.addObj (.String (s1h ++ s2h))
              .continueR { st with chunk := p.2, stack := .Obj p.1 :: s2 }
            | some _, some _ => .panicR
            | _, _ => .panicR
          | _, _ =>
            match valueAdd lhs rhs with
            | some v => .continueR { st with stack := v :: s2 }
            | none => .panicR
  | .Sub =>
    if !operandsMatch st.stack then runtimeErr st "Cannot subtract unmatched operands"
    else
      match popOperand st.stack with
      | none => runtimeErr st "Invalid operation, not enough operands"
      | some (lhs, s1) =>
        match popOperand s1 with
        | none => runtimeErr st "Invalid operation, not enough operands"
        | some (rhs, s2) =>
          match valueSub rhs lhs with
          | some v => .continueR { st with stack := v :: s2 }
          | none => .panicR
  | .Mul =>
    if !operandsMatch st.stack then runtimeErr st "Cannot multiply unmatched operands"
    else
      match popOperand st.stack with
      | none => runtimeErr st "Invalid operation, not enough operands"
      | some (lhs, s1) =>
        match popOperand s1 with
        | none => runtimeErr st "Invalid operation, not enough operands"
        | some (rhs, s2) =>
          match valueMul rhs lhs with
          | some v => .continueR { st with stack := v :: s2 }
          | none => .panicR
  | .Div =>
    if !operandsMatch st.stack then runtimeErr st "Cannot divide unmatched operands"
    else
      match popOperand st.stack with
      | none => runtimeErr st "Invalid operation, not enough operands"
      | some (lhs, s1) =>
        match popOperand s1 with
        | none => runtimeErr st "Invalid operation, not enough operands"
        | some (rhs, s2) =>
          match valueDiv rhs lhs with
          | some v => .continueR { st with stack := v :: s2 }
          | none => .panicR
  | .True => .continueR { st with stack := .Boolean true :: st.stack }
  | .False => .continueR { st with stack := .Boolean false :: st.stack }
  | .Nil => .continueR { st with stack := .Nil :: st.stack }
  | .Not =>
    match st.stack with
    | b :: rest => .continueR { st with stack := valueNot b :: rest }
    | [] => runtimeErr st "Cannot negate a non boolean"
  | .Eq =>
    match popOperand st.stack with
    | none => runtimeErr st "Invalid operation, not enough operands"
    | some (lhs, s1) =>
      match popOperand s1 with
      | none => runtimeErr st "Invalid operation, not enough operands"
      | some (rhs, s2) =>
        match lhs, rhs with
        | .Obj lIdx, .Obj rIdx =>
          match st.chunk.heap[lIdx]?, st.chunk.heap[rIdx]? with
          | some ol, some orr =>
            .continueR { st with stack := .Boolean (ol = orr) :: s2 }
          | _, _ => .panicR
        | _, _ => .continueR { st with stack := .Boolean (valueEqB lhs rhs) :: s2 }
  | .Less =>
    if !operandsMatch st.stack then runtimeErr st "Cannot compare unmatched operands"
    else
      match popOperand st.stack with
      | none => runtimeErr st "Invalid operation, not enough operands"
      | some (lhs, s1) =>
        match popOperand s1 with
        | none => runtimeErr st "Invalid operation, not enough operands"
        | some (rhs, s2) =>
          .continueR { st with stack := .Boolean (valueLt lhs rhs) :: s2 }
  | .Gtr =>
    if !operandsMatch st.stack then runtimeErr st "Cannot compare unmatched operands"
    else
      match popOperand st.stack with
      | none => runtimeErr st "Invalid operation, not enough operands"
      | some (lhs, s1) =>
        match popOperand s1 with
        | none => runtimeErr st "Invalid operation, not enough operands"
        | some (rhs, s2) =>
          .continueR { st with stack := .Boolean (valueGt lhs rhs) :: s2 }

/-- Observable outcome of `VM::interpret`: success (with whatever `Return`
printed to stdout), a runtime `Error`, or a panic. -/
inductive VmOutcome
  | okOut (printed : String)
  | errOut (msg : String)
  | panicOut
  deriving Repr, DecidableEq

/-- The `for`-loop of `VM::run`: each iteration bumps `ip` past the current
instruction and dispatches on it; falling off the end is `Ok(())`. -/
def vmExec : List OpCode → VmState → VmOutcome
  | [], _ => .okOut ""
  | inst :: rest, st =>
    let st1 := { st with ip := st.ip + 1 }
    match vmStepInst inst st1 with
    | .continueR st2 => vmExec rest st2
    | .haltR out => .okOut out
    | .errorR msg => .errOut msg
    | .panicR => .panicOut

/-- `VM::interpret`: compile the source (infallibly, per
`VM::compile`), reset `ip`, run.  A panic during compilation kills the
process before the VM starts. -/
def vmInterpret (fuel : Nat) (src : String) : VmOutcome :=
  let c := compile fuel src
  if c.scanner.panicked || c.panicked then .panicOut
  else vmExec c.chunk.code { chunk := c.chunk, ip := 0, stack := [] }

end Roxc

namespace RoxAst

/-! ## The AST crate `src`

Token kinds, AST (`src/expr.rs`, `src/stmt.rs`), the binary-expression
evaluator of `src/interpreter.rs`, value display (`src/value.rs`) and the
resolver (`src/resolver.rs`).  The crate's own `token.rs` is absent from the
sources; the enum below reproduces the sibling `roxi/src/token.rs`, which
declares the identical token-kind list these visitors match on. -/

/-- `TokenType` (from the sibling roxi/src/token.rs; literal payloads are
irrelevant to the visitors embedded here and are dropped). -/
inductive TokType
  | LeftParen | RightParen | LeftBrace | RightBrace | Comma | Dot | Minus | Plus
  | Semicolon | Slash | Star
  | Bang | BangEqual | Equal | EqualEqual | Greater | GreaterEqual | Less | LessEqual
  | Identifier | StringT | Number
  | And | Class | Else | False | Fun | For | If | Nil | Or | Print | Return | Super
  | This | True | Var | While | Eof
  deriving Repr, DecidableEq

/-- A token as the visitors see it: only `kind` (and `lexeme`, used for
tracing) matter. -/
structure Tok where
  kind : TokType
  lexeme : String
  deriving Repr, DecidableEq

/-- `Literal` from src/expr.rs. -/
inductive Literal
  | strL (s : String)
  | numL (n : ℚ)
  | boolL (b : Bool)
  | nilL
  deriving Repr, DecidableEq

/-- `Expr` from src/expr.rs.  Note the `Var` variant holds only the name:
there is no per-node resolved-depth slot anywhere in this AST. -/
inductive Expr
  | binary (left : Expr) (operator : Tok) (right : Expr)
  | grouping (inner : Expr)
  | literal (lit : Literal)
  | unary (operator : Tok) (right : Expr)
  | varE (name : String)
  | assign (name : String) (value : Expr)
  | logE (left : Expr) (operator : Tok) (right : Expr)
  | call (callee : Expr) (arguments : List Expr)
  | getE (object : Expr) (name : String)
  | setE (object : Expr) (name : String) (value : Expr)
  | thisE
  deriving Repr

mutual

/-- `Stmt` from src/stmt.rs. -/
inductive Stmt
  | print (e : Expr)
  | expr (e : Expr)
  | varS (name : String) (value : Option Expr)
  | block (list : List Stmt)
  | ifS (test : Expr) (consequence : Stmt) (alternate : Option Stmt)
  | whileS (test : Expr) (body : Stmt)
  | func (f : FunctionDecl)
  | ret (e : Option Expr)
  | classS (name : String) (methods : List FunctionDecl) (superClass : Option String)
  deriving Repr

/-- `Function` from src/stmt.rs. -/
inductive FunctionDecl
  | mk (name : String) (params : List String) (body : List Stmt)
  deriving Repr

end

/-- Field accessor for `Function::name`. -/
def FunctionDecl.name : FunctionDecl → String
  | .mk n _ _ => n

/-- Field accessor for `Function::params`. -/
def FunctionDecl.params : FunctionDecl → List String
  | .mk _ p _ => p

/-- Field accessor for `Function::body`. -/
def FunctionDecl.body : FunctionDecl → List Stmt
  | .mk _ _ b => b

/-! ### Expression evaluation fragment — `src/interpreter.rs`

`Value` from src/value.rs restricted to the variants a variable-free
expression program can produce (`Func`, `Init`, `NativeFunc` and `Class`
require declarations and are unreachable in that fragment, which is the
scope of the round-trip claim). -/

/-- The data variants of `Value` from src/value.rs. -/
inductive SrcValue
  | vString (s : String)
  | vNumber (n : ℚ)
  | vBool (b : Bool)
  | vNil
  deriving Repr, DecidableEq

/-- `Interpreter::is_truthy`. -/
def srcIsTruthy : SrcValue → Bool
  | .vNil => false
  | .vBool b => b
  | _ => true

/-- `Interpreter::is_equal`. -/
def srcIsEqual : SrcValue → SrcValue → Bool
  | .vNil, .vNil => true
  | .vString l, .vString r => l = r
  | .vNumber l, .vNumber r => l = r
  | .vBool l, .vBool r => l = r
  | _, _ => false

/-- `Literal::clone_into` / `From<Literal> for Value`. -/
def litInto : Literal → SrcValue
  | .strL s => .vString s
  | .numL n => .vNumber n
  | .boolL b => .vBool b
  | .nilL => .vNil

/-- The expression visitor of src/interpreter.rs (`visit_bin`,
`visit_group`, `visit_lit`, `visit_un`, `visit_log`) on the straight-line
fragment; the environment-dependent variants (variables, calls, properties)
cannot occur in the variable-free programs quantified over here and map to
a runtime error placeholder. -/
def twEval : Expr → Except String SrcValue
  | .binary l op r => do
    let lv ← twEval l
    let rv ← twEval r
    match op.kind, lv, rv with
    | .Minus, .vNumber lhs, .vNumber rhs => pure (.vNumber (lhs - rhs))
    | .Slash, .vNumber lhs, .vNumber rhs => pure (.vNumber (lhs / rhs))
    | .Star, .vNumber lhs, .vNumber rhs => pure (.vNumber (lhs * rhs))
    | .Plus, .vNumber lhs, .vNumber rhs => pure (.vNumber (lhs + rhs))
    | .Greater, .vNumber lhs, .vNumber rhs => pure (.vBool (lhs > rhs))
    | .GreaterEqual, .vNumber lhs, .vNumber rhs => pure (.vBool (lhs ≥ rhs))
    | .Less, .vNumber lhs, .vNumber rhs => pure (.vBool (lhs < rhs))
    | .LessEqual, .vNumber lhs, .vNumber rhs => pure (.vBool (lhs ≤ rhs))
    | .Plus, .vString lhs, .vString rhs => pure (.vString (lhs ++ rhs))
    | .EqualEqual, lv2, rv2 => pure (.vBool (srcIsEqual lv2 rv2))
    | .BangEqual, lv2, rv2 => pure (.vBool (!srcIsEqual lv2 rv2))
    | _, _, _ => .error "Invalid binary operation"
  | .grouping inner => twEval inner
  | .literal lit => pure (litInto lit)
  | .unary op e => do
    let rv ← twEval e
    match op.kind, rv with
    | .Minus, .vNumber n => pure (.vNumber (-n))
    | .Plus, .vNumber n => pure (.vNumber n)
    | .Bang, a => pure (.vBool (!srcIsTruthy a))
    | _, _ => .error "Invalid unary operation"
  | .logE l op r => do
    let lv ← twEval l
    match op.kind, srcIsTruthy lv with
    | .Or, true => pure (.vBool true)
    | .Or, false => do
      let rv ← twEval r
      pure (.vBool (srcIsTruthy rv))
    | .And, true => do
      let rv ← twEval r
      pure (.vBool (srcIsTruthy rv))
    | _, _ => pure (.vBool false)
  | _ => .error "outside the straight-line expression fragment"

/-- `impl Display for Value` from src/value.rs (data variants; note strings
re-print with surrounding double quotes). -/
def srcDisplay : SrcValue → String
  | .vString s => "\"" ++ s ++ "\""
  | .vNumber n => Roxc.fmtRat n
  | .vBool b => if b then "true" else "false"
  | .vNil => "nil"

/-- `Interpreter::visit_print_stmt`: evaluate and `println!` the display
form. -/
def twPrint (e : Expr) : Except String String := do
  let v ← twEval e
  pure (srcDisplay v ++ "\n")

/-! ### Resolver — `src/resolver.rs`

`scopes: Vec<HashMap<String, bool>>` (last = innermost) and
`depths: HashMap<String, usize>`; the hash maps are embedded as association
lists whose operations (`contains_key`, `get`, overwrite `insert`) are
order-independent.  The `interpreter` reference the struct holds is never
read by any resolver method and is omitted. -/

/-- One scope frame: `HashMap<String, bool>` (`false` = declared,
`true` = defined). -/
abbrev Scope := List (String × Bool)

/-- `HashMap::contains_key`. -/
def scopeContains (sc : Scope) (n : String) : Bool := sc.any (fun p => p.1 = n)

/-- `HashMap::get`. -/
def scopeGet (sc : Scope) (n : String) : Option Bool :=
  (sc.find? (fun p => p.1 = n)).map (·.2)

/-- `HashMap::insert` (overwrite). -/
def scopeInsert (sc : Scope) (n : String) (b : Bool) : Scope :=
  (n, b) :: sc.filter (fun p => p.1 ≠ n)

/-- The `depths` side table: `HashMap<String, usize>`. -/
abbrev DepthMap := List (String × Nat)

/-- `HashMap::insert` on the depth table (overwrite). -/
def dmInsert (d : DepthMap) (n : String) (v : Nat) : DepthMap :=
  (n, v) :: d.filter (fun p => p.1 ≠ n)

/-- `HashMap::get` on the depth table. -/
def dmGet (d : DepthMap) (n : String) : Option Nat :=
  (d.find? (fun p => p.1 = n)).map (·.2)

/-- `FuncType` from src/resolver.rs. -/
inductive FuncType
  | None
  | Func
  | Init
  | Method
  deriving Repr, DecidableEq

/-- Resolver state: scope stack, name-keyed depth table, current function
kind. -/
structure RState where
  scopes : List Scope
  depths : DepthMap
  currentFunc : FuncType
  deriving Repr, DecidableEq

/-- `Resolver::new`. -/
def rInit : RState := { scopes := [], depths := [], currentFunc := .None }

/-- Resolution result; `panicR` is the `unimplemented!` in `visit_this`,
and `fuelOut` is the artifact of the explicit recursion bound (never
produced when the fuel exceeds the AST depth, as in every run below).
Errors (`Error::Parser(msg)`) abort resolution, so no state is carried. -/
inductive RRes
  | okR (st : RState)
  | errR (msg : String)
  | panicR
  | fuelOut
  deriving Repr, DecidableEq

/-- Monadic-style chaining for `RRes`. -/
def RRes.andThen (r : RRes) (f : RState → RRes) : RRes :=
  match r with
  | .okR st => f st
  | e => e

/-- Is the resolution result `Ok`? -/
def RRes.isOk : RRes → Bool
  | .okR _ => true
  | _ => false

/-- `Resolver::begin_scope`: push an empty innermost scope. -/
def beginScope (st : RState) : RState := { st with scopes := st.scopes ++ [[]] }

/-- `Resolver::end_scope`: pop the innermost scope. -/
def endScope (st : RState) : RState := { st with scopes := st.scopes.dropLast }

/-- Replace the innermost scope. -/
def setLastScope (st : RState) (sc : Scope) : RState :=
  { st with scopes := st.scopes.dropLast ++ [sc] }

/-- `Resolver::declare`: error on re-declaration in the innermost scope,
else mark the name declared-but-undefined; a no-op at global level. -/
def rDeclare (st : RState) (name : String) : RRes :=
  match st.scopes.getLast? with
  | some scope =>
    if scopeContains scope name then
      .errR (name ++ " has already been declared in this scope")
    else .okR (setLastScope st (scopeInsert scope name false))
  | none => .okR st

/-- `Resolver::define`: flip an existing innermost-scope entry to defined;
a no-op when the name is absent or at global level. -/
def rDefine (st : RState) (name : String) : RState :=
  match st.scopes.getLast? with
  | some scope =>
    if scopeContains scope name then setLastScope st (scopeInsert scope name true)
    else st
  | none => st

/-- `Resolver::resolve_local`: iterate `scopes.iter_mut().enumerate().rev()`
and insert `scope_len - i` into the name-keyed `depths` table for EVERY
scope containing the name — the reverse iteration makes the outermost
containing scope's entry the one that survives. -/
def resolveLocal (st : RState) (name : String) : RState :=
  let scopeLen := st.scopes.length - 1
  let d1 := (st.scopes.enum.reverse).foldl
    (fun d p => if scopeContains p.2 name then dmInsert d name (scopeLen - p.1) else d)
    st.depths
  { st with depths := d1 }

/-- Declare-then-define each parameter in order (`resolve_func`'s loop),
propagating `declare` errors. -/
def rParams : RState → List String → RRes
  | st, [] => .okR st
  | st, p :: rest => (rDeclare st p).andThen fun st1 => rParams (rDefine st1 p) rest

mutual

/-- `Resolver::resolve_expr` / `ExprVisitor for Resolver`.  (Recursion over
the AST is bounded by explicit fuel so the kernel can evaluate it; runs
below always carry fuel exceeding the AST size.) -/
def resolveExpr : Nat → RState → Expr → RRes
  | 0, _, _ => .fuelOut
  | fuel + 1, st, e =>
    match e with
    | .binary l _ r => (resolveExpr fuel st l).andThen fun st1 => resolveExpr fuel st1 r
    | .grouping inner => resolveExpr fuel st inner
    | .literal _ => .okR st
    | .unary _ ex => resolveExpr fuel st ex
    | .varE name =>
      match st.scopes.getLast? with
      | some scope =>
        if scopeGet scope name = some false then
          .errR ("Cannot read local variable in its own initializer (" ++ name ++ ")")
        else .okR (resolveLocal st name)
      | none => .okR (resolveLocal st name)
    | .assign name value =>
      (resolveExpr fuel st value).andThen fun st1 => .okR (resolveLocal st1 name)
    | .logE l _ r => (resolveExpr fuel st l).andThen fun st1 => resolveExpr fuel st1 r
    | .call callee args =>
      (resolveExpr fuel st callee).andThen fun st1 => resolveExprList fuel st1 args
    | .getE obj _ => resolveExpr fuel st obj
    | .setE obj _ value =>
      (resolveExpr fuel st obj).andThen fun st1 => resolveExpr fuel st1 value
    | .thisE => .panicR

/-- Resolve call arguments left to right. -/
def resolveExprList : Nat → RState → List Expr → RRes
  | 0, _, _ => .fuelOut
  | _ + 1, st, [] => .okR st
  | fuel + 1, st, e :: rest =>
    (resolveExpr fuel st e).andThen fun st1 => resolveExprList fuel st1 rest

end

mutual

/-- `Resolver::resolve_stmt` / `StmtVisitor for Resolver`. -/
def resolveStmt : Nat → RState → Stmt → RRes
  | 0, _, _ => .fuelOut
  | fuel + 1, st, s =>
    match s with
    | .print e => resolveExpr fuel st e
    | .expr e => resolveExpr fuel st e
    | .varS name value =>
      (rDeclare st name).andThen fun st1 =>
        (match value with
          | some e => resolveExpr fuel st1 e
          | none => .okR st1).andThen fun st2 => .okR (rDefine st2 name)
    | .block list =>
      (resolveStmtList fuel (beginScope st) list).andThen fun st1 => .okR (endScope st1)
    | .ifS test cons alt =>
      (resolveExpr fuel st test).andThen fun st1 =>
        (resolveStmt fuel st1 cons).andThen fun st2 =>
          match alt with
          | some a => resolveStmt fuel st2 a
          | none => .okR st2
    | .whileS test body =>
      (resolveExpr fuel st test).andThen fun st1 => resolveStmt fuel st1 body
    | .func (.mk name params body) =>
      (rDeclare st name).andThen fun st1 =>
        resolveFunc fuel (rDefine st1 name) params body .Func
    | .ret e =>
      if st.currentFunc = .None then
        .errR "cannot return from outside of a function or method"
      else if st.currentFunc = .Init then
        .errR "Cannot return a value from an initializer"
      else
        match e with
        | some ex => resolveExpr fuel st ex
        | none => .okR st
    | .classS name methods _ =>
      resolveMethods fuel (rDefine st name) methods

/-- The method loop of `Resolver::visit_class`: every method — `init`
included — is resolved with `FuncType::Method`. -/
def resolveMethods : Nat → RState → List FunctionDecl → RRes
  | 0, _, _ => .fuelOut
  | _ + 1, st, [] => .okR st
  | fuel + 1, st, .mk _ params body :: rest =>
    (resolveFunc fuel st params body .Method).andThen fun st1 =>
      resolveMethods fuel st1 rest

/-- `Resolver::resolve_stmt_list`. -/
def resolveStmtList : Nat → RState → List Stmt → RRes
  | 0, _, _ => .fuelOut
  | _ + 1, st, [] => .okR st
  | fuel + 1, st, s :: rest =>
    (resolveStmt fuel st s).andThen fun st1 => resolveStmtList fuel st1 rest

/-- `Resolver::resolve_func`: save `current_func`, open the function scope,
declare/define parameters, resolve the body, close and restore. -/
def resolveFunc : Nat → RState → List String → List Stmt → FuncType → RRes
  | 0, _, _, _, _ => .fuelOut
  | fuel + 1, st, params, body, ty =>
    let enclosing := st.currentFunc
    let st1 := beginScope { st with currentFunc := ty }
    (rParams st1 params).andThen fun st2 =>
      (resolveStmtList fuel st2 body).andThen fun st3 =>
        .okR { endScope st3 with currentFunc := enclosing }

end

end RoxAst

namespace Roxi

/-! ## The `roxi` crate

Interpreter (`roxi/src/interpreter.rs`), classes/methods
(`roxi/src/class.rs`), functions (`roxi/src/func.rs`), statements
(`roxi/src/stmt.rs`).  The crate's `expr.rs`, `env.rs`, `value.rs`,
`callable.rs` and `globals.rs` are not among the sources: expressions reuse
the AST-crate `Expr` (the visitor signatures in interpreter.rs fix the same
shape), and the environment and native functions are modelled from the
spec, as marked on each definition. -/

/-- Expressions: roxi/src/expr.rs is absent; the interpreter's
`ExprVisitor` impl matches exactly the variants of the AST crate's `Expr`,
which is reused here. -/
abbrev Expr := RoxAst.Expr

/-- Tokens, as in roxi/src/token.rs (kinds only). -/
abbrev Tok := RoxAst.Tok

/-- Native functions (roxi/src/globals.rs is absent).  Modelled from the
spec: the global scope holds `clock()` and `mod(a,b)`. -/
inductive NativeFunc
  | clock
  | modN
  deriving Repr, DecidableEq

mutual

/-- `Stmt` from roxi/src/stmt.rs (no superclass on `Class`, unlike the
AST crate). -/
inductive Stmt
  | print (e : Expr)
  | expr (e : Expr)
  | varS (name : String) (value : Option Expr)
  | block (list : List Stmt)
  | ifS (test : Expr) (consequence : Stmt) (alternate : Option Stmt)
  | whileS (test : Expr) (body : Stmt)
  | func (f : RFunction)
  | ret (e : Option Expr)
  | classS (name : String) (methods : List RFunction)
  deriving Repr

/-- `Function` from roxi/src/stmt.rs. -/
inductive RFunction
  | mk (name : String) (params : List String) (body : List Stmt)
  deriving Repr

end

/-- Field accessor for roxi `Function::name`. -/
def RFunction.name : RFunction → String
  | .mk n _ _ => n

/-- Field accessor for roxi `Function::params`. -/
def RFunction.params : RFunction → List String
  | .mk _ p _ => p

/-- Field accessor for roxi `Function::body`. -/
def RFunction.body : RFunction → List Stmt
  | .mk _ _ b => b

mutual

/-- `Value` from the absent roxi/src/value.rs; its variants are fixed by
the interpreter's matches: `String`, `Number`, `Bool`, `Nil`, `Func`,
`Init` (class constructor), `NativeFunc`, `Class` (instance), `Method`. -/
inductive Value
  | vString (s : String)
  | vNumber (n : ℚ)
  | vBool (b : Bool)
  | vNil
  | vFunc (f : Func)
  | vInit (c : Class)
  | vNativeFunc (n : NativeFunc)
  | vClass (i : ClassInstance)
  | vMethod (m : Method)
  deriving Repr

/-- `Func` from roxi/src/func.rs: name, params, body, captured environment
(a stack of frames) and `env_idx`. -/
inductive Func
  | mk (name : String) (params : List String) (body : List Stmt)
      (env : List (List (String × Value))) (envIdx : Nat)
  deriving Repr

/-- `Class` from roxi/src/class.rs: name, declared methods, `env_idx`. -/
inductive Class
  | mk (name : String) (methods : List RFunction) (envIdx : Nat)
  deriving Repr

/-- `ClassInstance` from roxi/src/class.rs: class, fields, bound methods. -/
inductive ClassInstance
  | mk (cls : Class) (fields : List (String × Value))
      (methods : List (String × Method))
  deriving Repr

/-- `Method` from roxi/src/class.rs: the function plus the `(depth, name)`
pair locating the instance at the call site. -/
inductive Method
  | mk (func : Func) (thisDepth : Nat) (thisName : String)
  deriving Repr

end

/-- Field accessor `Func::name`. -/
def Func.name : Func → String
  | .mk n _ _ _ _ => n

/-- Field accessor `Func::params`. -/
def Func.params : Func → List String
  | .mk _ p _ _ _ => p

/-- Field accessor `Func::body`. -/
def Func.body : Func → List Stmt
  | .mk _ _ b _ _ => b

/-- Field accessor `Func::env`. -/
def Func.env : Func → List (List (String × Value))
  | .mk _ _ _ e _ => e

/-- Field accessor `Class::name`. -/
def Class.name : Class → String
  | .mk n _ _ => n

/-- Field accessor `Class::methods`. -/
def Class.methods : Class → List RFunction
  | .mk _ m _ => m

/-- Field accessor `Class::env_idx`. -/
def Class.envIdx : Class → Nat
  | .mk _ _ i => i

/-- Field accessor `ClassInstance::class`. -/
def ClassInstance.cls : ClassInstance → Class
  | .mk c _ _ => c

/-- Field accessor `ClassInstance::fields`. -/
def ClassInstance.fields : ClassInstance → List (String × Value)
  | .mk _ f _ => f

/-- Field accessor `ClassInstance::methods`. -/
def ClassInstance.methods : ClassInstance → List (String × Method)
  | .mk _ _ m => m

/-- Field accessor `Method::func`. -/
def Method.func : Method → Func
  | .mk f _ _ => f

/-- Field accessor `Method::this_name`. -/
def Method.thisName : Method → String
  | .mk _ _ n => n

/-- `Error` from roxi/src/error.rs; `Return` is the unwinding
pseudo-error carrying a value. -/
inductive RoxiErr
  | scanner (s : String)
  | parser (s : String)
  | resolution (s : String)
  | runtime (s : String)
  | ret (v : Value)
  deriving Repr

/-! ### Environment — modelled from the spec

roxi/src/env.rs is absent.  Modelled from the spec: "a stack of frames,
each frame a mapping from identifier to value", with `get`/`define`/
`assign` doing lexical lookup from the innermost frame outwards,
`descend`/`ascend` pushing/popping an empty frame, and `split`/`append`
detaching and reattaching frames for captured closures.  The list head is
the innermost frame. -/

/-- One scope frame. -/
abbrev Frame := List (String × Value)

/-- The frame stack; head = innermost. -/
abbrev Env := List Frame

/-- Frame lookup. -/
def frameGet (fr : Frame) (name : String) : Option Value :=
  (fr.find? (fun p => p.1 = name)).map (·.2)

/-- Frame insert (overwrite). -/
def frameInsert (fr : Frame) (name : String) (v : Value) : Frame :=
  (name, v) :: fr.filter (fun p => p.1 ≠ name)

/-- Modelled from the spec: the global scope binding the natives `clock`
and `mod`, with the script frame above it (mirroring the sibling crate's
`Env::root`). -/
def envRoot : Env :=
  [[], [("clock", .vNativeFunc .clock), ("mod", .vNativeFunc .modN)]]

/-- Modelled from the spec: `Env::depth` — the height of the frame stack
above the global frame. -/
def envDepth (env : Env) : Nat := env.length - 1

/-- Modelled from the spec: `Env::descend` pushes an empty innermost
frame. -/
def envDescend (env : Env) : Env := [] :: env

/-- Modelled from the spec: `Env::ascend` pops the innermost frame (a
no-op at the root, as in the sibling crate). -/
def envAscend (env : Env) : Env :=
  match env with
  | _ :: rest@(_ :: _) => rest
  | e => e

/-- Modelled from the spec: `Env::get` — lexical lookup from the innermost
frame outwards; undefined names are a runtime error. -/
def envGet (env : Env) (name : String) : Except RoxiErr Value :=
  match env with
  | [] => .error (.runtime ("variable \"" ++ name ++ "\" is not yet defined"))
  | fr :: rest =>
    match frameGet fr name with
    | some v => .ok v
    | none => envGet rest name

/-- Modelled from the spec: `Env::define` — bind in the innermost frame
(`None` initializers bind `Nil`). -/
def envDefine (env : Env) (name : String) (v : Option Value) : Env :=
  match env with
  | [] => [[(name, v.getD .vNil)]]
  | fr :: rest => frameInsert fr name (v.getD .vNil) :: rest

/-- Modelled from the spec: `Env::assign` — overwrite the nearest existing
binding; assigning an undefined name is a runtime error. -/
def envAssign (env : Env) (name : String) (v : Value) : Except RoxiErr Env :=
  match env with
  | [] => .error (.runtime ("variable \"" ++ name ++ "\" is not yet defined"))
  | fr :: rest =>
    if (frameGet fr name).isSome then .ok (frameInsert fr name v :: rest)
    else (envAssign rest name v).map (fr :: ·)

/-- Modelled from the spec: the base of the stack — the global frame and
the script frame above it — below which `split`/`append` never reach. -/
def envBase (env : Env) : Env := env.drop (env.length - 2)

/-- Modelled from the spec: `Env::split_to_base` — detach every frame above
the base, returning the detached stack (the environment keeps the base). -/
def splitToBase (env : Env) : Env × Env :=
  (env.take (env.length - 2), envBase env)

/-- Modelled from the spec: `Env::append` — reattach a detached stack above
the current frames. -/
def envAppend (env : Env) (tail : Env) : Env := tail ++ env

/-- Modelled from the spec: `Env::clone_to_base` — clone the enclosing
chain above the global frame (a function's captured frames; parameters of
a later call bind inside the clone, so each invocation sees a fresh copy,
which is what makes the crate's own recursion test pass). -/
def cloneToBase (env : Env) : Env := env.take (env.length - 1)

/-- Display of values (roxi/src/value.rs is absent; the data variants
follow the sibling src/value.rs `Display`, and the `Func`/`Class`/`Method`
forms are the `Display` impls present in roxi/src/func.rs and
roxi/src/class.rs). -/
def displayValue : Value → String
  | .vString s => "\"" ++ s ++ "\""
  | .vNumber n => Roxc.fmtRat n
  | .vBool b => if b then "true" else "false"
  | .vNil => "nil"
  | .vFunc f => "[fn " ++ f.name ++ "]"
  | .vInit c => "[ctor " ++ c.name ++ "]"
  | .vNativeFunc .clock => "[native fn clock]"
  | .vNativeFunc .modN => "[native fn mod]"
  | .vClass i => "[" ++ i.cls.name ++ " instance]"
  | .vMethod m => m.thisName ++ "." ++ m.func.name

/-- `Interpreter::is_truthy` (roxi/src/interpreter.rs). -/
def isTruthy : Value → Bool
  | .vNil => false
  | .vBool b => b
  | _ => true

/-- `Interpreter::is_equal` (roxi/src/interpreter.rs). -/
def isEqual : Value → Value → Bool
  | .vNil, .vNil => true
  | .vString l, .vString r => l = r
  | .vNumber l, .vNumber r => l = r
  | .vBool l, .vBool r => l = r
  | _, _ => false

/-- `Literal::clone_into` for the roxi value type. -/
def litIntoV : RoxAst.Literal → Value
  | .strL s => .vString s
  | .numL n => .vNumber n
  | .boolL b => .vBool b
  | .nilL => .vNil

/-- `ClassInstance::get`: fields first, then bound methods, else the
"Undefined propety" (sic) runtime error. -/
def instGet (i : ClassInstance) (key : String) : Except RoxiErr Value :=
  match frameGet i.fields key with
  | some v => .ok v
  | none =>
    match (i.methods.find? (fun p => p.1 = key)).map (·.2) with
    | some m => .ok (.vMethod m)
    | none =>
      .error (.runtime ("Undefined propety on " ++ i.cls.name ++ " instance: " ++ key))

/-- `ClassInstance::set`: update or insert a field. -/
def instSet (i : ClassInstance) (key : String) (v : Value) : ClassInstance :=
  .mk i.cls (frameInsert i.fields key v) i.methods

/-- Rebind every bound method's `this_name` (the loop in `visit_assign` /
`visit_var_stmt`). -/
def instRename (i : ClassInstance) (name : String) : ClassInstance :=
  .mk i.cls i.fields (i.methods.map (fun p =>
    match p.2 with
    | .mk f d _ => (p.1, Method.mk f d name)))

/-- The interpreter state: the environment plus the lines printed so far
(the `closures` vector of the struct is never read or pushed in this crate
and is omitted). -/
structure IState where
  env : Env
  printed : List String
  deriving Repr

/-- `Interpreter::new`. -/
def iInit : IState := { env := envRoot, printed := [] }

/-- Evaluation result: `none` is fuel exhaustion (never reached by the
concrete runs below), otherwise the Rust `Result` plus the state. -/
abbrev EvalR (α : Type) := Option ((Except RoxiErr α) × IState)

/-- Error-propagating sequencing on `EvalR`. -/
def bindE {α β : Type} (r : EvalR α) (f : α → IState → EvalR β) : EvalR β :=
  match r with
  | none => none
  | some (.ok v, st) => f v st
  | some (.error e, st) => some (.error e, st)

/-- Lift an environment operation's result into `EvalR`. -/
def liftE {α : Type} (r : Except RoxiErr α) (st : IState) : EvalR α :=
  match r with
  | .ok v => some (.ok v, st)
  | .error e => some (.error e, st)

/-- The dynamic dispatch target of `visit_call`'s `handle_callable`. -/
inductive Callee
  | funcC (f : Func)
  | initC (c : Class)
  | nativeC (n : NativeFunc)
  | methodC (m : Method)

/-- `Callable::arity` for each implementor.  `impl Callable for Class`
(roxi/src/class.rs) hard-codes `arity() = 0` — declared `init` parameters
are ignored by the check.  The native arities are modelled from the spec
(`clock()`, `mod(a,b)`). -/
def calleeArity : Callee → Nat
  | .funcC f => f.params.length
  | .initC _ => 0
  | .nativeC .clock => 0
  | .nativeC .modN => 2
  | .methodC m => m.func.params.length

/-- The `Display` form `handle_callable` interpolates into the arity
error. -/
def calleeDisplay : Callee → String
  | .funcC f => "[fn " ++ f.name ++ "]"
  | .initC c => "[ctor " ++ c.name ++ "]"
  | .nativeC .clock => "[native fn clock]"
  | .nativeC .modN => "[native fn mod]"
  | .methodC m => m.thisName ++ "." ++ m.func.name

/-- Bind parameters to arguments pairwise (`params.zip(args)`). -/
def defineParams (env : Env) (params : List String) (args : List Value) : Env :=
  (params.zip args).foldl (fun e p => envDefine e p.1 (some p.2)) env

/-- Truncated `f64` remainder (`a % b` in Rust), on `ℚ`; modelled from the
spec for the absent globals.rs `mod` native. -/
def ratRem (a b : ℚ) : ℚ :=
  if b = 0 then 0
  else a - b * (((if 0 ≤ a / b then (a / b).floor else (a / b).ceil) : ℤ) : ℚ)

/-- The arity-error message `handle_callable` builds. -/
def arityMsg (c : Callee) (got : Nat) : String :=
  calleeDisplay c ++ " was expecting " ++ toString (calleeArity c) ++
    " arguments but " ++ toString got ++ " were provided"

/-- Field accessor `Func::env_idx`. -/
def Func.envIdx : Func → Nat
  | .mk _ _ _ _ i => i

/-- The `Value::Class`/`Value::Func` renaming `visit_var_stmt` performs on
the freshly bound value. -/
def patchNamed (name : String) : Value → Value
  | .vClass inst => .vClass (instRename inst name)
  | .vFunc (.mk _ params body env idx) => .vFunc (.mk name params body env idx)
  | v => v

mutual

/-- `Interpreter::evaluate` / the `ExprVisitor` impl in
roxi/src/interpreter.rs.  (In the property-miss error message the source
interpolates the `Debug` form of the operand expression; the embedding
abbreviates that interpolation, which no theorem below depends on.) -/
def evalExpr : Nat → Expr → IState → EvalR Value
  | 0, _, _ => none
  | fuel + 1, e, st =>
    match e with
    | .binary l op r =>
      bindE (evalExpr fuel l st) fun lv st1 =>
      bindE (evalExpr fuel r st1) fun rv st2 =>
        match op.kind, lv, rv with
        | .Minus, .vNumber a, .vNumber b => some (.ok (.vNumber (a - b)), st2)
        | .Slash, .vNumber a, .vNumber b => some (.ok (.vNumber (a / b)), st2)
        | .Star, .vNumber a, .vNumber b => some (.ok (.vNumber (a * b)), st2)
        | .Plus, .vNumber a, .vNumber b => some (.ok (.vNumber (a + b)), st2)
        | .Greater, .vNumber a, .vNumber b => some (.ok (.vBool (a > b)), st2)
        | .GreaterEqual, .vNumber a, .vNumber b => some (.ok (.vBool (a ≥ b)), st2)
        | .Less, .vNumber a, .vNumber b => some (.ok (.vBool (a < b)), st2)
        | .LessEqual, .vNumber a, .vNumber b => some (.ok (.vBool (a ≤ b)), st2)
        | .Plus, .vString a, .vString b => some (.ok (.vString (a ++ b)), st2)
        | .EqualEqual, a, b => some (.ok (.vBool (isEqual a b)), st2)
        | .BangEqual, a, b => some (.ok (.vBool (!isEqual a b)), st2)
        | _, _, _ => some (.error (.runtime "Invalid binary operation"), st2)
    | .grouping inner => evalExpr fuel inner st
    | .literal lit => some (.ok (litIntoV lit), st)
    | .unary op ex =>
      bindE (evalExpr fuel ex st) fun rv st1 =>
        match op.kind, rv with
        | .Minus, .vNumber n => some (.ok (.vNumber (-n)), st1)
        | .Plus, .vNumber n => some (.ok (.vNumber n), st1)
        | .Bang, a => some (.ok (.vBool (!isTruthy a)), st1)
        | _, _ => some (.error (.runtime "Invalid unary operation"), st1)
    | .varE name => liftE (envGet st.env name) st
    | .assign name value =>
      bindE (evalExpr fuel value st) fun v st1 =>
        let v2 := match v with
          | .vClass inst => Value.vClass (instRename inst name)
          | w => w
        match envAssign st1.env name v2 with
        | .ok env2 => some (.ok v2, { st1 with env := env2 })
        | .error err => some (.error err, st1)
    | .logE l op r =>
      bindE (evalExpr fuel l st) fun lv st1 =>
        match op.kind, isTruthy lv with
        | .Or, true => some (.ok (.vBool true), st1)
        | .Or, false =>
          bindE (evalExpr fuel r st1) fun rv st2 => some (.ok (.vBool (isTruthy rv)), st2)
        | .And, true =>
          bindE (evalExpr fuel r st1) fun rv st2 => some (.ok (.vBool (isTruthy rv)), st2)
        | _, _ => some (.ok (.vBool false), st1)
    | .call callee args =>
      bindE (evalExpr fuel callee st) fun cv st1 =>
      bindE (evalArgs fuel args st1) fun avs st2 =>
        match cv with
        | .vFunc f => handleCallable fuel (.funcC f) avs st2
        | .vInit c => handleCallable fuel (.initC c) avs st2
        | .vNativeFunc n => handleCallable fuel (.nativeC n) avs st2
        | .vMethod m => handleCallable fuel (.methodC m) avs st2
        | other =>
          some (.error (.runtime
            ("Attempt to call a something that is not a function " ++ displayValue other)), st2)
    | .getE obj name =>
      bindE (evalExpr fuel obj st) fun ov st1 =>
        match ov with
        | .vClass inst => liftE (instGet inst name) st1
        | _ => some (.error (.runtime ("cannot find property " ++ name)), st1)
    | .setE obj name value =>
      bindE (evalExpr fuel value st) fun v st1 =>
      bindE (readPlace fuel obj st1) fun place st2 =>
        match place with
        | .vClass inst =>
          bindE (writePlace fuel obj (.vClass (instSet inst name v)) st2) fun _ st3 =>
            some (.ok v, st3)
        | _ => some (.ok v, st2)
    | .thisE => liftE (envGet st.env "this") st

/-- `visit_call`'s left-to-right argument evaluation. -/
def evalArgs : Nat → List Expr → IState → EvalR (List Value)
  | 0, _, _ => none
  | _ + 1, [], st => some (.ok [], st)
  | fuel + 1, e :: rest, st =>
    bindE (evalExpr fuel e st) fun v st1 =>
    bindE (evalArgs fuel rest st1) fun vs st2 => some (.ok (v :: vs), st2)

/-- `Interpreter::evaluate_mut`, read side: the value currently behind the
mutable place (env slot for `Var`/`This`, instance field for `Get`). -/
def readPlace : Nat → Expr → IState → EvalR Value
  | 0, _, _ => none
  | fuel + 1, e, st =>
    match e with
    | .varE name => liftE (envGet st.env name) st
    | .thisE => liftE (envGet st.env "this") st
    | .getE obj name =>
      bindE (readPlace fuel obj st) fun ov st1 =>
        match ov with
        | .vClass inst =>
          match frameGet inst.fields name with
          | some v => some (.ok v, st1)
          | none =>
            some (.error (.runtime
              ("Undefined propety on " ++ inst.cls.name ++ " instance: " ++ name)), st1)
        | _ => some (.error (.runtime "Invalid left hand side of assignment"), st1)
    | _ => some (.error (.runtime "Invalid left hand side of assignment"), st)

/-- `Interpreter::evaluate_mut`, write side: store a new value through the
same place (in Rust the write happens through the returned `&mut`). -/
def writePlace : Nat → Expr → Value → IState → EvalR Unit
  | 0, _, _, _ => none
  | fuel + 1, e, v, st =>
    match e with
    | .varE name =>
      match envAssign st.env name v with
      | .ok env2 => some (.ok (), { st with env := env2 })
      | .error err => some (.error err, st)
    | .thisE =>
      match envAssign st.env "this" v with
      | .ok env2 => some (.ok (), { st with env := env2 })
      | .error err => some (.error err, st)
    | .getE obj name =>
      bindE (readPlace fuel obj st) fun ov st1 =>
        match ov with
        | .vClass inst => writePlace fuel obj (.vClass (instSet inst name v)) st1
        | _ => some (.error (.runtime "Invalid left hand side of assignment"), st1)
    | _ => some (.error (.runtime "Invalid left hand side of assignment"), st)

/-- `Interpreter::handle_callable`: the arity gate, then the call with
`Error::Return` caught into a normal value. -/
def handleCallable : Nat → Callee → List Value → IState → EvalR Value
  | 0, _, _, _ => none
  | fuel + 1, c, args, st =>
    if calleeArity c ≠ args.length then
      some (.error (.runtime (arityMsg c args.length)), st)
    else
      match (match c with
        | .funcC f => funcCall fuel f args st
        | .initC cl => classCall fuel cl args st
        | .nativeC n => nativeCall fuel n args st
        | .methodC m => methodCall fuel m args st) with
      | none => none
      | some (.ok v, st1) => some (.ok v, st1)
      | some (.error (.ret v), st1) => some (.ok v, st1)
      | some (.error e, st1) => some (.error e, st1)

/-- `impl Callable for Class`, `call` (roxi/src/class.rs): build the bound
method table (cloning the current environment into each method, extracting
`init`), make the instance; with an `init`, descend, bind the instance to
`*`, run `init` — note the `?` on that call propagates errors before the
`ascend` — then read `*` back and ascend. -/
def classCall : Nat → Class → List Value → IState → EvalR Value
  | 0, _, _, _ => none
  | fuel + 1, c, args, st =>
    let build := c.methods.foldl
      (fun (acc : Option Method × List (String × Method)) dfn =>
        let func := Func.mk dfn.name dfn.params dfn.body st.env c.envIdx
        let meth := Method.mk func (envDepth st.env) ""
        if dfn.name = "init" then (some meth, acc.2)
        else (acc.1, (dfn.name, meth) :: acc.2.filter (fun p => p.1 ≠ dfn.name)))
      (none, [])
    let inst := ClassInstance.mk c [] build.2
    match build.1 with
    | some im =>
      let env1 := envDescend st.env
      let initM := Method.mk im.func (envDepth env1) "*"
      let env2 := envDefine env1 "*" (some (.vClass inst))
      bindE (methodCall fuel initM args { st with env := env2 }) fun _ st1 =>
        match envGet st1.env "*" with
        | .ok updated => some (.ok updated, { st1 with env := envAscend st1.env })
        | .error e => some (.error e, st1)
    | none => some (.ok (.vClass inst), st)

/-- `impl Callable for Method`, `call` (roxi/src/class.rs): fetch the
instance from `this_name`, descend, bind `this` and the parameters, run the
body (catching `Return`), read `this` back, ascend, write the instance back
to `this_name`. -/
def methodCall : Nat → Method → List Value → IState → EvalR Value
  | 0, _, _, _ => none
  | fuel + 1, m, args, st =>
    match envGet st.env m.thisName with
    | .error e => some (.error e, st)
    | .ok thisV =>
      let env1 := envDefine (envDescend st.env) "this" (some thisV)
      let env2 := defineParams env1 m.func.params args
      match executeBlock fuel m.func.body { st with env := env2 } with
      | none => none
      | some (r, st1) =>
        let ret : Except RoxiErr Value :=
          match r with
          | .ok _ => .ok .vNil
          | .error (.ret v) => .ok v
          | .error e => .error e
        match envGet st1.env "this" with
        | .error e => some (.error e, st1)
        | .ok updatedThis =>
          let env3 := envAscend st1.env
          match envAssign env3 m.thisName updatedThis with
          | .error e => some (.error e, { st1 with env := env3 })
          | .ok env4 => some (ret, { st1 with env := env4 })

/-- `impl Callable for Func`, `call` (roxi/src/func.rs): split the caller's
frames off the base, append the captured environment, bind parameters, run
the body (catching `Return`); afterwards clone the callee frames back into
the function value (so closure mutations persist), restore the base and
reattach the caller's frames (the spec's contract that the caller's
environment is restored on return), and store the updated function under
its own name. -/
def funcCall : Nat → Func → List Value → IState → EvalR Value
  | 0, _, _, _ => none
  | fuel + 1, f, args, st =>
    let p := splitToBase st.env
    let env1 := envAppend p.2 f.env
    let env2 := defineParams env1 f.params args
    match executeBlock fuel f.body { st with env := env2 } with
    | none => none
    | some (r, st1) =>
      let ret : Except RoxiErr Value :=
        match r with
        | .ok _ => .ok .vNil
        | .error (.ret v) => .ok v
        | .error e => .error e
      let f2 := Func.mk f.name f.params f.body (cloneToBase st1.env) f.envIdx
      let env3 := envAppend (envBase st1.env) p.1
      match envAssign env3 f.name (.vFunc f2) with
      | .error e => some (.error e, { st1 with env := env3 })
      | .ok env4 => some (ret, { st1 with env := env4 })

/-- The natives.  Modelled from the spec: `clock()` returns milliseconds
since the epoch (an unspecified number; a fixed constant here — no claim
observes it) and `mod(a,b)` the IEEE remainder. -/
def nativeCall : Nat → NativeFunc → List Value → IState → EvalR Value
  | 0, _, _, _ => none
  | _ + 1, .clock, _, st => some (.ok (.vNumber 0), st)
  | _ + 1, .modN, args, st =>
    match args with
    | [.vNumber a, .vNumber b] => some (.ok (.vNumber (ratRem a b)), st)
    | _ => some (.error (.runtime "mod expects two numbers"), st)

/-- `Interpreter::interpret` / the `StmtVisitor` impl in
roxi/src/interpreter.rs. -/
def interpretStmt : Nat → Stmt → IState → EvalR Unit
  | 0, _, _ => none
  | fuel + 1, s, st =>
    match s with
    | .print e =>
      bindE (evalExpr fuel e st) fun v st1 =>
        some (.ok (), { st1 with printed := st1.printed ++ [displayValue v ++ "\n"] })
    | .expr e => bindE (evalExpr fuel e st) fun _ st1 => some (.ok (), st1)
    | .varS name value =>
      match value with
      | some ex =>
        match evalExpr fuel ex st with
        | none => none
        | some (r, st1) =>
          match r with
          | .ok v =>
            some (.ok (), { st1 with env := envDefine st1.env name (some (patchNamed name v)) })
          | .error (.ret v) =>
            some (.ok (), { st1 with env := envDefine st1.env name (some (patchNamed name v)) })
          | .error e => some (.error e, st1)
      | none => some (.ok (), { st with env := envDefine st.env name none })
    | .block l => executeBlock fuel l st
    | .ifS t cons alt =>
      bindE (evalExpr fuel t st) fun b st1 =>
        if isTruthy b then interpretStmt fuel cons st1
        else
          match alt with
          | some a => interpretStmt fuel a st1
          | none => some (.ok (), st1)
    | .whileS t body =>
      bindE (evalExpr fuel t st) fun b st1 =>
        if isTruthy b then
          bindE (interpretStmt fuel body st1) fun _ st2 =>
            interpretStmt fuel (Stmt.whileS t body) st2
        else some (.ok (), st1)
    | .func (.mk name params body) =>
      let envC := cloneToBase st.env
      let f := Func.mk name params body envC (envDepth st.env - 1)
      some (.ok (), { st with env := envDefine st.env name (some (.vFunc f)) })
    | .ret e =>
      match e with
      | some ex =>
        bindE (evalExpr fuel ex st) fun v st1 => some (.error (.ret v), st1)
      | none => some (.error (.ret .vNil), st)
    | .classS name methods =>
      let env1 := envDefine st.env name none
      let c := Class.mk name methods (envDepth env1)
      match envAssign env1 name (.vInit c) with
      | .ok env2 => some (.ok (), { st with env := env2 })
      | .error e => some (.error e, { st with env := env1 })

/-- `Interpreter::execute_block`: descend, run the statements, ascend —
with the early `ascend` on the error path. -/
def executeBlock : Nat → List Stmt → IState → EvalR Unit
  | 0, _, _ => none
  | fuel + 1, stmts, st => blockLoop fuel stmts { st with env := envDescend st.env }

/-- The statement loop inside `execute_block`. -/
def blockLoop : Nat → List Stmt → IState → EvalR Unit
  | 0, _, _ => none
  | _ + 1, [], st => some (.ok (), { st with env := envAscend st.env })
  | fuel + 1, s :: rest, st =>
    match interpretStmt fuel s st with
    | none => none
    | some (.ok _, st1) => blockLoop fuel rest st1
    | some (.error e, st1) => some (.error e, { st1 with env := envAscend st1.env })

end

/-- `Lox::run` (roxi/src/lib.rs): interpret the statements in order,
stopping at the first error. -/
def runProgram (fuel : Nat) : List Stmt → IState → EvalR Unit
  | [], st => some (.ok (), st)
  | s :: rest, st =>
    match interpretStmt fuel s st with
    | none => none
    | some (.ok _, st1) => runProgram fuel rest st1
    | some (.error e, st1) => some (.error e, st1)

end Roxi


namespace Roxc

/-- A sequence of `Chunk::write` calls from the empty chunk. -/
def chunkOfWrites (writes : List (OpCode × Nat)) : Chunk :=
  writes.foldl (fun c w => c.write w.1 w.2) Chunk.empty

end Roxc

namespace Roxi

/-- Project the runtime-error message out of a run (when it ended in one). -/
def runErrMsg (r : EvalR Unit) : Option String :=
  match r with
  | some (.error (.runtime m), _) => some m
  | _ => none

/-- Project the final environment's frame depth out of a run. -/
def runFinalDepth (r : EvalR Unit) : Option Nat :=
  r.map fun p => envDepth p.2.env

/-- Project the lines printed to stdout out of a run. -/
def runPrinted (r : EvalR Unit) : Option (List String) :=
  r.map fun p => p.2.printed

/-- The end-to-end scenario program
`class A{init(x){this.x=x;} get(){return this.x;}} var a=A(42); print a.get();`
as the parser builds it. -/
def c3Program : List Stmt :=
  [Stmt.classS "A"
      [RFunction.mk "init" ["x"] [Stmt.expr (RoxAst.Expr.setE .thisE "x" (.varE "x"))],
       RFunction.mk "get" [] [Stmt.ret (some (.getE .thisE "x"))]],
   Stmt.varS "a" (some (.call (.varE "A") [.literal (.numL 42)])),
   Stmt.print (.call (.getE (.varE "a") "get") [])]

/-- A program whose `init` body raises a runtime error (an undefined
variable): `class A{init(){nope;}} var a = A();`. -/
def c5Program : List Stmt :=
  [Stmt.classS "A" [RFunction.mk "init" [] [Stmt.expr (RoxAst.Expr.varE "nope")]],
   Stmt.varS "a" (some (.call (.varE "A") []))]

end Roxi

namespace RoxAst

/-- A program with `x` declared in two nested scopes and referenced where
the innermost declaration is zero hops away:
`{ var x; { var x; x; } }`. -/
def c4Demo : Stmt :=
  .block [.varS "x" none, .block [.varS "x" none, .expr (.varE "x")]]

/-- A class whose `init` method returns a value: `class A { init(x) { return 5; } }`. -/
def c9Demo : Stmt :=
  .classS "A" [.mk "init" ["x"] [.ret (some (.literal (.numL 5)))]] none

lemma dmInsert_dmInsert (d : DepthMap) (n : String) (v v' : Nat) :
    dmInsert (dmInsert d n v') n v = dmInsert d n v := by
  unfold dmInsert
  simp only [List.filter_cons]
  have : (decide (((n, v') : String × Nat).1 ≠ n)) = false := by simp
  rw [this]
  simp [List.filter_filter]

lemma resolveLocal_aux (name : String) (scopeLen : Nat) :
    ∀ (l : List Scope) (k : Nat) (d : DepthMap),
      (List.enumFrom k l).foldr
          (fun p d => if scopeContains p.2 name then dmInsert d name (scopeLen - p.1) else d) d
        = match l.findIdx? (fun sc => scopeContains sc name) k with
          | some j => dmInsert d name (scopeLen - j)
          | none => d := by
  intro l
  induction l with
  | nil => intro k d; rfl
  | cons sc rest ih =>
    intro k d
    rw [List.enumFrom_cons, List.findIdx?_cons]
    simp only [List.foldr_cons]
    by_cases hc : scopeContains sc name
    · rw [if_pos hc, if_pos hc, ih (k + 1) d]
      rcases hf : rest.findIdx? (fun sc => scopeContains sc name) (k + 1) with _ | j
      · rfl
      · exact dmInsert_dmInsert d name (scopeLen - k) (scopeLen - j)
    · rw [if_neg hc, if_neg (by simpa using hc), ih (k + 1) d]

end RoxAst

namespace Roxc

lemma scNext_of_foundEof (s : ScState) (h : s.foundEof = true) :
    scNext s = (.done, s) := by
  unfold scNext
  rw [if_pos h]

lemma scRun_of_foundEof (s : ScState) (h : s.foundEof = true) :
    ∀ k, scRun s k = .done := by
  intro k
  induction k generalizing s with
  | zero => rw [scRun, scNext_of_foundEof s h]
  | succ k ih =>
    rw [scRun, scNext_of_foundEof s h]
    exact ih s h

lemma scNext_eof_sets_flag (s : ScState) (t : Token) (s' : ScState)
    (h : scNext s = (.tok t, s')) (ht : t.kind = .Eof) : s'.foundEof = true := by
  unfold scNext at h
  by_cases hf : s.foundEof = true
  · rw [if_pos hf] at h
    simp at h
  · rw [if_neg hf] at h
    rcases hnt : nextToken s with ⟨r, s2⟩
    rw [hnt] at h
    dsimp only at h
    by_cases hpan : s2.panicked = true
    · rw [if_pos hpan] at h
      simp at h
    · rw [if_neg hpan] at h
      cases r with
      | err e => simp at h
      | tok t2 =>
        dsimp only at h
        by_cases hk : t2.kind = .Eof
        · rw [if_pos hk] at h
          simp only [Prod.mk.injEq, ScStep.tok.injEq] at h
          rw [← h.2]
        · rw [if_neg hk] at h
          simp only [Prod.mk.injEq, ScStep.tok.injEq] at h
          rcases h with ⟨h1, -⟩
          subst h1
          exact absurd ht hk

lemma wrapSub64_ge_of_lt_two (len : Nat) (h : len < 2) : len ≤ wrapSub64 len 2 := by
  unfold wrapSub64
  interval_cases len <;> decide

lemma operandsMatch_false_of_short (stack : List Value) (h : stack.length < 2) :
    operandsMatch stack = false := by
  have hge : stack.length ≤ wrapSub64 stack.length 2 := wrapSub64_ge_of_lt_two _ h
  have hnone : dequeGet stack (wrapSub64 stack.length 2) = none := by
    unfold dequeGet
    rw [dif_neg (by omega)]
  unfold operandsMatch
  rw [hnone]
  rcases stack.head? with _ | v
  · rfl
  · cases v <;> rfl

lemma runtimeErr_isRuntimeErr (st : VmState) (msg : String)
    (hline : (runGet st.chunk.lines st.ip).isSome = true) :
    (runtimeErr st msg).isRuntimeErr = true := by
  unfold runtimeErr
  rcases hr : runGet st.chunk.lines st.ip with _ | l
  · rw [hr] at hline
    exact absurd hline (by decide)
  · rfl

end Roxc

namespace Roxc

lemma chunkOfWrites_lines (writes : List (OpCode × Nat)) :
    (chunkOfWrites writes).lines = writes.foldl (fun rl w => runPush rl w.2) [] := by
  unfold chunkOfWrites
  have : ∀ (ws : List (OpCode × Nat)) (c : Chunk),
      (ws.foldl (fun c w => c.write w.1 w.2) c).lines
        = ws.foldl (fun rl w => runPush rl w.2) c.lines := by
    intro ws
    induction ws with
    | nil => intro c; rfl
    | cons w rest ih => intro c; exact ih _
  exact this writes Chunk.empty

lemma foldl_runPush_decoded (ls : List Nat) :
    ∀ (rl : RunList), runDecoded (ls.foldl runPush rl) = runDecoded rl ++ ls := by
  induction ls with
  | nil => intro rl; simp
  | cons l rest ih =>
    intro rl
    rw [List.foldl_cons, ih, runPush_decoded]
    simp

lemma runPush_merge :
    ∀ (rl : RunList) (r : RunLength), rl.getLast? = some r →
      runPush rl r.value = rl.dropLast ++ [⟨r.value, r.len + 1⟩] := by
  intro rl
  induction rl with
  | nil => intro r h; exact absurd h (by simp)
  | cons x rest ih =>
    intro r h
    cases rest with
    | nil =>
      simp only [List.getLast?_singleton, Option.some.injEq] at h
      subst h
      simp [runPush]
    | cons y ys =>
      rw [List.getLast?_cons_cons] at h
      have hx : runPush (x :: y :: ys) r.value = x :: runPush (y :: ys) r.value := rfl
      rw [hx, ih r h]
      rfl

end Roxc

/-! ## Claim theorems -/

/-- C1: the round-trip claim fails: for the expression `1 < 2` the
tree-walking interpreter prints `true` while the bytecode compiler plus VM
print `false` (the VM's `Less` arm orders its popped operands backwards),
so the two execution paths do not print the same final value. -/
theorem c1_roundtrip_fails_on_less :
    RoxAst.twPrint (RoxAst.Expr.binary (.literal (.numL 1)) ⟨.Less, "<"⟩
        (.literal (.numL 2))) = .ok "true\n" ∧
      Roxc.vmInterpret 100 "1 < 2" = .okOut "false\n" ∧
      ("true\n" : String) ≠ "false\n" :=
  ⟨rfl, rfl, by decide⟩

/-- C2: with a = 1 below b = 2 (b on top) and matching operands, the `Less`
arm pushes `b < a` = false (the claim says a < b = true); with heap
strings a = "x" (index 0) below b = "y" (index 1), `Add` allocates "yx" —
b's characters followed by a's — not "xy". -/
theorem c2_less_and_string_add_reversed :
    Roxc.vmStepInst .Less (Roxc.VmState.mk Roxc.Chunk.empty 1 [.Number 2, .Number 1])
      = .continueR (Roxc.VmState.mk Roxc.Chunk.empty 1 [.Boolean false]) ∧
    Roxc.vmStepInst .Add
        (Roxc.VmState.mk (Roxc.Chunk.mk [] [] [.String ['x'], .String ['y']] []) 1
          [.Obj 1, .Obj 0])
      = .continueR (Roxc.VmState.mk
          (Roxc.Chunk.mk [] [] [.String ['x'], .String ['y'], .String ['y', 'x']] []) 1
          [.Obj 2]) :=
  ⟨rfl, rfl⟩

/-- C3: running the scenario program errors with the arity message
`[ctor A] was expecting 0 arguments but 1 were provided` and prints
nothing — `impl Callable for Class` hard-codes `arity() = 0`, so the
one-argument constructor call `A(42)` fails `handle_callable`'s arity
check instead of running `init` and printing 42. -/
theorem c3_ctor_with_arg_fails_arity :
    Roxi.runErrMsg (Roxi.runProgram 100 Roxi.c3Program Roxi.iInit)
        = some "[ctor A] was expecting 0 arguments but 1 were provided" ∧
      Roxi.runPrinted (Roxi.runProgram 100 Roxi.c3Program Roxi.iInit) = some [] :=
  ⟨rfl, rfl⟩

/-- C4 counterexample: in `{ var x; { var x; x; } }` the sole reference to
`x` is zero scopes from its innermost declaration, yet resolution ends with
the name-keyed side table recording 1 — the hop to the outermost
declaration — and no hop is recorded on any AST node (the `Var` node has no
depth slot). -/
theorem c4_hop_is_outermost_not_innermost :
    RoxAst.resolveStmt 100 RoxAst.rInit RoxAst.c4Demo
        = .okR { scopes := [], depths := [("x", 1)], currentFunc := .None } ∧
      (1 : Nat) ≠ 0 :=
  ⟨rfl, by decide⟩

/-- C4 (amended): the resolver records hops in a side table keyed by the
variable's name — one entry shared by every reference to that name — and
`resolve_local` stores, for the name's OUTERMOST enclosing scope `i` that
contains it, the value `scopes.length - 1 - i`; scope stacks without the
name leave the table untouched. -/
theorem c4_resolveLocal_records_outermost (st : RoxAst.RState) (name : String) :
    (RoxAst.resolveLocal st name).depths =
      match st.scopes.findIdx? (fun sc => RoxAst.scopeContains sc name) with
      | some i => RoxAst.dmInsert st.depths name (st.scopes.length - 1 - i)
      | none => st.depths := by
  unfold RoxAst.resolveLocal
  simp only [List.enum, List.foldl_reverse]
  have h := RoxAst.resolveLocal_aux name (st.scopes.length - 1) st.scopes 0 st.depths
  simp only at h
  rw [h]

/-- C5: inside `Class::call` the init path runs `init.call(int, args)?`
before its `ascend`; a runtime error in the init body (here an undefined
variable) therefore escapes with the descended frame still in place — the
environment is one frame deeper after the failed call than before it, so
descend/ascend pairing fails on the error exit path. -/
theorem c5_init_error_leaks_frame :
    Roxi.runErrMsg (Roxi.runProgram 100 Roxi.c5Program Roxi.iInit)
        = some "variable \"nope\" is not yet defined" ∧
      Roxi.runFinalDepth (Roxi.runProgram 100 Roxi.c5Program Roxi.iInit)
        = some (Roxi.envDepth Roxi.iInit.env + 1) :=
  ⟨rfl, rfl⟩

/-- C6: scanning the unterminated string literal `"abc` panics — `Scanner::string`
has no end-of-input check, so `take_through` runs off the end and the
look-ahead re-slice indexes out of bounds — instead of returning a
`ScannerError` (and no `String` token is produced either). -/
theorem c6_unterminated_string_panics :
    Roxc.scRun (Roxc.scInit "\"abc") 0 = .panicStep := rfl

/-- C7 counterexample: on the source `@` the unrecognized byte is reported
WITHOUT being consumed, so every iterator call returns the same
`Some(Err ScannerError{line 1, index 0})` with unchanged state: the token
stream is infinite and the EOF token is never emitted. -/
theorem c7_unknown_byte_never_reaches_eof :
    Roxc.scNext (Roxc.scInit "@") = (.err ⟨1, 0⟩, Roxc.scInit "@") ∧
      ∀ n, Roxc.scRun (Roxc.scInit "@") n = .err ⟨1, 0⟩ := by
  refine ⟨rfl, ?_⟩
  intro n
  induction n with
  | zero => rfl
  | succ n ih =>
    have h : Roxc.scNext (Roxc.scInit "@") = (.err ⟨1, 0⟩, Roxc.scInit "@") := rfl
    rw [Roxc.scRun, h]
    exact ih

/-- C7 (amended): the EOF token is emitted at most once and is terminal:
whenever the n-th observation of the scanner's iterator is an EOF token,
every later observation is `None`.  (On sources with an unrecognized byte
the iterator need not be finite and EOF may never come, per the
counterexample.) -/
theorem c7_eof_then_none (s : Roxc.ScState) (n m : Nat) (t : Roxc.Token)
    (hn : Roxc.scRun s n = .tok t) (ht : t.kind = .Eof) (hm : n < m) :
    Roxc.scRun s m = .done := by
  induction n generalizing s m with
  | zero =>
    rcases m with _ | m
    · omega
    · rcases hsn : Roxc.scNext s with ⟨step, s'⟩
      rw [Roxc.scRun] at hn
      rw [hsn] at hn
      simp only at hn
      subst hn
      have hflag := Roxc.scNext_eof_sets_flag s t s' hsn ht
      rw [Roxc.scRun, hsn]
      exact Roxc.scRun_of_foundEof s' hflag m
  | succ n ih =>
    rcases m with _ | m
    · omega
    · rcases hsn : Roxc.scNext s with ⟨step, s'⟩
      rw [Roxc.scRun] at hn
      rw [hsn] at hn
      rw [Roxc.scRun, hsn]
      cases step with
      | panicStep => simp at hn
      | tok t' => exact ih s' m hn (by omega)
      | err e => exact ih s' m hn (by omega)
      | done => exact ih s' m hn (by omega)

/-- C7 witness: on the empty source the iterator emits EOF at observation 0,
and the theorem then forces observation 1 to be `None`. -/
theorem c7_eof_then_none_witness : Roxc.scRun (Roxc.scInit "") 1 = .done :=
  c7_eof_then_none (Roxc.scInit "") 0 1 { kind := .Eof, slice := [], line := 1 }
    rfl rfl (by decide)

/-- C8: the run-length line table is lossless: for any write sequence,
decoding any index below the instruction count returns exactly the line
supplied with that write; and pushing a line equal to the last run's value
increments that run's count in place instead of starting a new run. -/
theorem c8_line_table_lossless (writes : List (Roxc.OpCode × Nat)) (i : Nat)
    (h : i < writes.length) :
    Roxc.runGet (Roxc.chunkOfWrites writes).lines i = some (writes.get ⟨i, h⟩).2 ∧
    ∀ (rl : Roxc.RunList) (r : Roxc.RunLength), rl.getLast? = some r →
      Roxc.runPush rl r.value = rl.dropLast ++ [⟨r.value, r.len + 1⟩] := by
  constructor
  · rw [Roxc.chunkOfWrites_lines]
    have hfold : writes.foldl (fun rl w => Roxc.runPush rl w.2) []
        = (writes.map Prod.snd).foldl Roxc.runPush [] := by
      rw [List.foldl_map]
    rw [hfold, Roxc.runGet_decoded, Roxc.foldl_runPush_decoded]
    simp only [Roxc.runDecoded, List.flatMap_nil, List.nil_append]
    rw [List.get?_eq_getElem?, List.getElem?_map]
    rw [List.getElem?_eq_getElem h]
    simp [List.get_eq_getElem]
  · exact Roxc.runPush_merge

/-- C8 witness: three writes at lines 7, 7, 9 decode index 1 back to line 7,
and pushing 7 onto a table ending in a (7, 2) run yields (7, 3). -/
theorem c8_line_table_lossless_witness :
    Roxc.runGet (Roxc.chunkOfWrites [(.Return, 7), (.Return, 7), (.Return, 9)]).lines 1
        = some 7 ∧
      Roxc.runPush [⟨7, 2⟩] 7 = [⟨7, 3⟩] := by
  have h := c8_line_table_lossless [(.Return, 7), (.Return, 7), (.Return, 9)] 1 (by decide)
  refine ⟨h.1, ?_⟩
  have h2 := h.2 [⟨7, 2⟩] ⟨7, 2⟩ rfl
  simpa using h2

/-- C9: the resolver accepts a class whose `init` returns a value
(`FuncType::Init` is never assigned — `visit_class` resolves every method,
`init` included, as `FuncType::Method` — so the initializer-return error is
unreachable), while a bare top-level return does error as claimed. -/
theorem c9_init_return_value_not_rejected :
    RoxAst.resolveStmt 100 RoxAst.rInit RoxAst.c9Demo = .okR RoxAst.rInit ∧
      RoxAst.resolveStmt 100 RoxAst.rInit (.ret none)
        = .errR "cannot return from outside of a function or method" :=
  ⟨rfl, rfl⟩

/-- C10 counterexample: `VM::interpret "true + false"` panics — the two
booleans satisfy `operands_match`, so the `Add` arm reaches `lhs + rhs`,
whose `impl Add for Value` is `unimplemented!` for booleans — so interpret
is not total (neither Ok nor an Error value). -/
theorem c10_interpret_panics_on_bool_add :
    Roxc.vmInterpret 100 "true + false" = .panicOut := rfl

/-- C10 (amended): executing a guarded binary opcode (`Add`, `Sub`, `Mul`,
`Div`, `Less`, `Gtr`) with fewer than two stack values takes the
runtime-error branch — under release (wrapping) semantics for the
`len - 2` underflow in `operands_match` — provided the line-table lookup
inside the diagnostic is in range. -/
theorem c10_short_stack_runtime_error (st : Roxc.VmState) (op : Roxc.OpCode)
    (hop : op = .Add ∨ op = .Sub ∨ op = .Mul ∨ op = .Div ∨ op = .Less ∨ op = .Gtr)
    (hstack : st.stack.length < 2)
    (hline : (Roxc.runGet st.chunk.lines st.ip).isSome = true) :
    (Roxc.vmStepInst op st).isRuntimeErr = true := by
  have hmatch := Roxc.operandsMatch_false_of_short st.stack hstack
  rcases hop with h | h | h | h | h | h <;> subst h <;>
    simp only [Roxc.vmStepInst, hmatch, Bool.not_false, if_pos] <;>
    exact Roxc.runtimeErr_isRuntimeErr st _ hline

/-- C10 witness: `Add` on an empty stack (with a one-run line table and
`ip = 0`) is a runtime error. -/
theorem c10_short_stack_runtime_error_witness :
    (Roxc.vmStepInst .Add
        (Roxc.VmState.mk (Roxc.Chunk.mk [.Add] [] [] [⟨1, 1⟩]) 0 [])).isRuntimeErr
      = true :=
  c10_short_stack_runtime_error _ _ (Or.inl rfl) (by decide) (by decide)

/-! ## Embedding validation

The repository's own unit tests, replayed against the embedding: the
scanner test from roxc/src/lib.rs, the compiler test from
roxc/src/compiler.rs, the run-list test from roxc/src/chunk.rs, and the
closure / recursion tests from roxi/src/func.rs. -/

/-- The token stream of `!(5 - 4 > 3 * 2 == !nil)` (the `expressions` test
in roxc/src/lib.rs). -/
theorem roxcScannerExpressionsTest :
    (List.range 14).map (Roxc.scRun (Roxc.scInit "!(5 - 4 > 3 * 2 == !nil)")) =
      [.tok ⟨.Bang, ['!'], 1⟩, .tok ⟨.LeftParen, ['('], 1⟩, .tok ⟨.Number, ['5'], 1⟩,
       .tok ⟨.Minus, ['-'], 1⟩, .tok ⟨.Number, ['4'], 1⟩, .tok ⟨.Greater, ['>'], 1⟩,
       .tok ⟨.Number, ['3'], 1⟩, .tok ⟨.Star, ['*'], 1⟩, .tok ⟨.Number, ['2'], 1⟩,
       .tok ⟨.EqEq, ['=', '='], 1⟩, .tok ⟨.Bang, ['!'], 1⟩,
       .tok ⟨.Nil, ['n', 'i', 'l'], 1⟩, .tok ⟨.RightParen, [')'], 1⟩,
       .tok ⟨.Eof, [], 1⟩] := rfl

/-- The chunk of `"first" + "last"` (the `strings` test in
roxc/src/compiler.rs) and of the lib.rs `expressions` source. -/
theorem roxcCompilerStringsTest :
    (Roxc.compile 100 "\"first\" + \"last\"").chunk.code
        = [.Constant 0, .Constant 1, .Add, .Return] ∧
      (Roxc.compile 100 "\"first\" + \"last\"").chunk.heap
        = [.String ['f', 'i', 'r', 's', 't'], .String ['l', 'a', 's', 't']] ∧
      (Roxc.compile 100 "!(5 - 4 > 3 * 2 == !nil)").chunk.code
        = [.Constant 0, .Constant 1, .Sub, .Constant 2, .Constant 3, .Mul, .Gtr,
           .Nil, .Not, .Eq, .Not, .Return] :=
  ⟨rfl, rfl, rfl⟩

/-- The `run_list` test in roxc/src/chunk.rs: pushing
`[1, 2, 3, 3, 3, 3, 4, 5, 6, 6, 7]` and reading each index back. -/
theorem roxcRunListTest :
    (List.range 11).map
        (Roxc.runGet ([1, 2, 3, 3, 3, 3, 4, 5, 6, 6, 7].foldl Roxc.runPush []))
      = [some 1, some 2, some 3, some 3, some 3, some 3, some 4, some 5, some 6,
         some 6, some 7] := rfl

/-- The `nested_funcs` closure test of roxi/src/func.rs: the counter
returned by `makeCounter` yields 1 then 2 (the captured `i` persists across
calls), with the environment depth restored. -/
theorem roxiNestedFuncsTest :
    (Roxi.runProgram 1000
      [Roxi.Stmt.varS "test" (some (.literal (.numL 0))),
       Roxi.Stmt.func (Roxi.RFunction.mk "makeCounter" []
         [Roxi.Stmt.varS "i" (some (.literal (.numL 0))),
          Roxi.Stmt.func (Roxi.RFunction.mk "count" []
            [Roxi.Stmt.expr (.assign "i"
              (.binary (.varE "i") ⟨.Plus, "+"⟩ (.literal (.numL 1)))),
             Roxi.Stmt.ret (some (.varE "i"))]),
          Roxi.Stmt.ret (some (.varE "count"))]),
       Roxi.Stmt.varS "counter" (some (.call (.varE "makeCounter") [])),
       Roxi.Stmt.varS "test1" (some (.call (.varE "counter") [])),
       Roxi.Stmt.varS "test2" (some (.call (.varE "counter") []))] Roxi.iInit).map
        (fun p => (p.1.isOk, Roxi.envGet p.2.env "test1", Roxi.envGet p.2.env "test2",
          Roxi.envDepth p.2.env))
      = some (true, .ok (.vNumber 1), .ok (.vNumber 2), 1) := by
  with_unfolding_all rfl

set_option maxHeartbeats 1600000 in
/-- The `recursive` test of roxi/src/func.rs, shrunk one step to keep the
kernel computation small: `fib(3) = 2`. -/
theorem roxiRecursiveFibTest :
    (Roxi.runProgram 1000
      [Roxi.Stmt.func (Roxi.RFunction.mk "fib" ["n"]
         [Roxi.Stmt.ifS (.binary (.varE "n") ⟨.Less, "<"⟩ (.literal (.numL 2)))
            (Roxi.Stmt.ret (some (.varE "n"))) none,
          Roxi.Stmt.ret (some (.binary
            (.call (.varE "fib")
              [.binary (.varE "n") ⟨.Minus, "-"⟩ (.literal (.numL 1))])
            ⟨.Plus, "+"⟩
            (.call (.varE "fib")
              [.binary (.varE "n") ⟨.Minus, "-"⟩ (.literal (.numL 2))])))]),
       Roxi.Stmt.varS "test" (some (.call (.varE "fib") [.literal (.numL 3)]))]
      Roxi.iInit).map
        (fun p => (p.1.isOk, Roxi.envGet p.2.env "test", Roxi.envDepth p.2.env))
      = some (true, .ok (.vNumber 2), 1) := by
  with_unfolding_all rfl
